import Mathlib

/-
Verification development for the sge-serper-scraper repository.

JavaScript strings are modeled shallowly as lists of characters (`Str`),
so that the string operations used by the code (split, includes, endsWith,
toLowerCase, replace of a fixed prefix) become structurally recursive list
functions that are easy to evaluate and reason about.

The WHATWG `new URL(...)` builtin (a host-platform facility, not repository
code) is modeled by `urlHostname`: scheme validation, authority extraction,
userinfo/port stripping and a forbidden-host-character check.  Punycode/IDNA,
IPv6 bracket hosts, percent-decoding and special-scheme-without-slashes
parsing are outside the inputs exercised here and are not modeled; hosts with
such characters are treated as parse failures, matching the code's catch
branches.  JavaScript `toLowerCase` is modeled on the ASCII range.
-/

/-- JS strings as lists of characters. -/
abbrev Str := List Char

/-- Convenience conversion from Lean string literals. -/
def strOf (s : String) : Str :=
  s.toList

/-- Model of JS `s.toLowerCase()` (ASCII range). -/
def lowerStr (s : Str) : Str :=
  s.map Char.toLower

/-- Does `s` begin with `pat`?  (Helper for `hasSub` / `trailsWith`.) -/
def leadsWith : Str → Str → Bool
  | [], _ => true
  | _ :: _, [] => false
  | p :: ps, c :: cs => p == c && leadsWith ps cs

/-- Model of JS `s.includes(pat)`: contiguous substring test. -/
def hasSub : Str → Str → Bool
  | [], pat => pat.isEmpty
  | c :: rest, pat => leadsWith pat (c :: rest) || hasSub rest pat

/-- Model of JS `s.endsWith(pat)`. -/
def trailsWith (s pat : Str) : Bool :=
  leadsWith pat.reverse s.reverse

/-- Model of JS `s.split('.')`: splits at every dot, keeping empty pieces. -/
def splitOnDot : Str → List Str
  | [] => [[]]
  | c :: rest =>
    if c == '.' then [] :: splitOnDot rest
    else
      match splitOnDot rest with
      | [] => [[c]]
      | s :: ss => (c :: s) :: ss

/-- Does `s` start with `www.` case-insensitively?  This is the guard of the
JS replacement `s.replace(/^www\./i, '')`. -/
def startsWWW (s : Str) : Bool :=
  lowerStr (s.take 4) == strOf ("www.")

/-- Model of JS `s.replace(/^www\./i, '')`: removes one leading `www.`. -/
def stripWWW (s : Str) : Str :=
  if startsWWW s then s.drop 4 else s

/-- ASCII letter (used for URL scheme validation). -/
def asciiAlpha (c : Char) : Bool :=
  (65 ≤ c.toNat && c.toNat ≤ 90) || (97 ≤ c.toNat && c.toNat ≤ 122)

/-- ASCII digit (used for URL port validation). -/
def digitChar (c : Char) : Bool :=
  48 ≤ c.toNat && c.toNat ≤ 57

/-- Characters allowed after the first character of a URL scheme. -/
def schemeChar (c : Char) : Bool :=
  asciiAlpha c || digitChar c || c == '+' || c == '-' || c == '.'

/-- A valid URL scheme: a letter followed by letters, digits, `+`, `-`, `.`. -/
def validScheme : Str → Bool
  | [] => false
  | c :: rest => asciiAlpha c && rest.all schemeChar

/-- Characters ending the authority component of a URL. -/
def authDelim (c : Char) : Bool :=
  c == '/' || c == '?' || c == '#'

/-- Characters that make a URL host invalid (forbidden host/domain code
points of the URL standard, restricted to the ones modeled here). -/
def badHostChar (c : Char) : Bool :=
  c == ' ' || c == '#' || c == '%' || c == '/' || c == ':' || c == '<' ||
  c == '>' || c == '?' || c == '@' || c == '[' || c == ']' || c == '^' || c == '|'

/-- Split `s` at the first occurrence of `t`, returning the parts before and
after it, or `none` when `t` does not occur. -/
def splitAtFirst (t : Char) : Str → Option (Str × Str)
  | [] => none
  | c :: cs =>
    if c == t then some ([], cs)
    else
      match splitAtFirst t cs with
      | none => none
      | some (a, b) => some (c :: a, b)

/-- The suffix of `s` after its last `@`, or `s` itself when `@` is absent
(userinfo stripping in URL authority parsing). -/
def afterLastAt (s : Str) : Str :=
  (s.reverse.takeWhile (fun c => c != '@')).reverse

/-- Parse the part of a URL after `scheme://`: take the authority up to the
first `/`, `?` or `#`, drop userinfo, split off a decimal port, and validate
the remaining host. -/
def parseAuthority (r : Str) : Option Str :=
  let auth := r.takeWhile (fun c => !authDelim c)
  let hp := afterLastAt auth
  let hostPort :=
    match splitAtFirst ':' hp with
    | none => (hp, ([] : Str))
    | some (h, p) => (h, p)
  match hostPort with
  | ([], _) => none
  | (host, port) =>
    if host.all (fun c => !badHostChar c) && port.all digitChar then some host
    else none

/-- Model of the `new URL(s).hostname` builtin: `none` models a thrown
`TypeError`, `some h` a successfully parsed hostname (empty for URLs without
an authority component, e.g. `mailto:`). -/
def urlHostname (s : Str) : Option Str :=
  match splitAtFirst ':' s with
  | none => none
  | some (scheme, rest) =>
    if validScheme scheme then
      if leadsWith (strOf ("//")) rest then parseAuthority (rest.drop 2)
      else some []
    else none

/-- Embeds `extractHostname` of `src/main.js`: hostname of the URL with a
leading `www.` removed and lowercased, or the empty string when URL parsing
fails. -/
def extractHostname (url : Str) : Str :=
  match urlHostname url with
  | some h => lowerStr (stripWWW h)
  | none => []

/-- Embeds `normalizeDomain` of `src/main.js`: falsy input gives the empty
string; otherwise the input (or `https://` + input when it has no `://`) is
URL-parsed and the hostname is `www.`-stripped and lowercased; on parse
failure the raw input is `www.`-stripped and lowercased. -/
def normalizeDomain (domain : Str) : Str :=
  if domain.isEmpty then []
  else
    match
      (if hasSub domain (strOf ("://")) then urlHostname domain
       else urlHostname (strOf ("https://") ++ domain)) with
    | some h => lowerStr (stripWWW h)
    | none => lowerStr (stripWWW domain)

/-- Normalized search result item (the search providers' item shape). -/
structure SearchItem where
  title : Str
  snippet : Str
  link : Str
  position : Nat
  query : Str
  page : Nat
  error : Option Str
  deriving DecidableEq, Repr

/-- Match record returned by `findFirstDomainMatch`. -/
structure MatchResult where
  link : Str
  title : Str
  position : Nat
  deriving DecidableEq, Repr

/-- Exact tier: hostname equals the target. -/
def exactMatch (host target : Str) : Bool :=
  host == target

/-- Subdomain tier: hostname ends with `.` + target. -/
def subdomainMatch (host target : Str) : Bool :=
  trailsWith host ('.' :: target)

/-- Partial-word tier (the JS `partialMatch`): every dot-segment of the
target is a substring of some dot-segment of the hostname. -/
def wordMatch (host target : Str) : Bool :=
  (splitOnDot target).all (fun tp => (splitOnDot host).any (fun hp => hasSub hp tp))

/-- The three match tiers (the JS `matchType` values). -/
inductive MatchType
  | exact
  | subdomain
  | partWord
  deriving DecidableEq, Repr

/-- The tier classification computed by `findFirstDomainMatch` (its
`matchType` local): first satisfied tier wins, `none` when no tier holds. -/
def tierOf (host target : Str) : Option MatchType :=
  if exactMatch host target then some MatchType.exact
  else if subdomainMatch host target then some MatchType.subdomain
  else if wordMatch host target then some MatchType.partWord
  else none

/-- The per-item match test of `findFirstDomainMatch`: any of the three
tiers holds for the hostname extracted from the item's link. -/
def itemMatches (target : Str) (item : SearchItem) : Bool :=
  let host := extractHostname item.link
  exactMatch host target || subdomainMatch host target || wordMatch host target

/-- Embeds `findFirstDomainMatch` of `src/main.js`: normalize the domain,
return `none` for a falsy target, otherwise scan the items in order and
return link/title/position of the first item matching any tier. -/
def findFirstDomainMatch (items : List SearchItem) (domain : Str) : Option MatchResult :=
  let target := normalizeDomain domain
  if target.isEmpty then none
  else
    items.findSome? (fun item =>
      if itemMatches target item then
        some { link := item.link, title := item.title, position := item.position }
      else none)

/-- The JSON value stored in a summary's `rank` field: an integer, a string,
or `null`. -/
inductive RankValue
  | pos (n : Nat)
  | str (s : Str)
  | null
  deriving DecidableEq, Repr

/-- Domain-mode per-query summary record (timestamp and file naming are I/O
and are not modeled). -/
structure QuerySummary where
  keyword : Str
  domain : Str
  link : Option Str
  title : Option Str
  rank : RankValue
  deriving DecidableEq, Repr

/-- Decimal digits of a natural number (JS number-to-string in a template
literal). -/
def natStr (n : Nat) : Str :=
  Nat.toDigits 10 n

/-- Embeds `saveDomainMatchSummary` of `src/main.js`.  Note the source
hardcodes the string literal `'>100'` when `hasReachedMaxResults` is set,
although it receives `maxResults` as a parameter. -/
def saveDomainMatchSummary (query domain : Str) (m : MatchResult)
    (hasReachedMaxResults : Bool) (maxResults : Nat) : QuerySummary :=
  { keyword := query, domain := domain, link := some m.link, title := some m.title,
    rank :=
      if hasReachedMaxResults then RankValue.str (strOf (">100"))
      else RankValue.pos m.position }

/-- Embeds `saveDomainNoMatchSummary` of `src/main.js`: rank is the string
`>` + maxResults when `reachedMaxResults` is set, else `null`. -/
def saveDomainNoMatchSummary (query domain : Str)
    (reachedMaxResults : Bool) (maxResults : Nat) : QuerySummary :=
  { keyword := query, domain := domain, link := none, title := none,
    rank :=
      if reachedMaxResults then RankValue.str ('>' :: natStr maxResults)
      else RankValue.null }

/-- One step of the domain-mode per-query loop of `src/main.js`
(lines 127-182), over the pages yielded by the paginator: accumulate
`totalResults`, try `findFirstDomainMatch` per page, early-stop on a match
(with `hasReachedMaxResults = !isUnlimited && totalResults >= maxResults`),
break on the budget check, and finalize a not-found summary with
`reachedMaxResults = !isUnlimited && (totalResults >= maxResults ||
totalResults === 0)`. -/
def processQueryDomainAux (query domainIn : Str) (maxResults : Nat) :
    List (List SearchItem) → Nat → QuerySummary
  | [], total =>
    let reached := !(maxResults == 0) && (decide (total ≥ maxResults) || total == 0)
    saveDomainNoMatchSummary query domainIn reached maxResults
  | items :: rest, total =>
    let total2 := total + items.length
    match findFirstDomainMatch items domainIn with
    | some m =>
      let hasReached := !(maxResults == 0) && decide (total2 ≥ maxResults)
      saveDomainMatchSummary query domainIn m hasReached maxResults
    | none =>
      if !(maxResults == 0) && decide (total2 ≥ maxResults) then
        let reached := !(maxResults == 0) && (decide (total2 ≥ maxResults) || total2 == 0)
        saveDomainNoMatchSummary query domainIn reached maxResults
      else processQueryDomainAux query domainIn maxResults rest total2

/-- The domain-mode per-query processing, started with zero accumulated
results. -/
def processQueryDomain (query domainIn : Str) (maxResults : Nat)
    (pages : List (List SearchItem)) : QuerySummary :=
  processQueryDomainAux query domainIn maxResults pages 0

/-- Raw organic entry of a Serper search response (`data.organic`); fields
may be absent. -/
structure OrganicItem where
  title : Option Str
  snippet : Option Str
  link : Option Str
  deriving DecidableEq, Repr

/-- Raw Serper search response body: the organic list and
`searchInformation?.totalResults || 0`. -/
structure SerperData where
  organic : List OrganicItem
  totalResults : Nat
  deriving DecidableEq, Repr

/-- Normalized page produced by the search provider (timestamp, provider
and mode strings are constant metadata and are not modeled). -/
structure ResultPage where
  items : List SearchItem
  query : Str
  page : Nat
  totalResults : Nat
  hasMorePages : Bool
  error : Option Str
  deriving DecidableEq, Repr

/-- Embeds `SerperSearchProvider.normalizeResults`: positions are
`page*10 + index + 1`, the stored page is 1-based, and `hasMorePages` is
`items.length === 10`. -/
def searchNormalizeResults (data : SerperData) (query : Str) (page : Nat) : ResultPage :=
  let items := data.organic.enum.map (fun p =>
    { title := p.2.title.getD [], snippet := p.2.snippet.getD [],
      link := p.2.link.getD [], position := page * 10 + p.1 + 1,
      query := query, page := page + 1, error := none : SearchItem })
  { items := items, query := query, page := page + 1,
    totalResults := data.totalResults,
    hasMorePages := items.length == 10, error := none }

/-- Embeds `BaseSearchProvider.createErrorResult`: one synthetic page whose
single item carries the error message. -/
def searchCreateErrorResult (query : Str) (page : Nat) (error : Str) : ResultPage :=
  { items := [{ title := [], snippet := [], link := [], position := page * 10 + 1,
                query := query, page := page + 1, error := some error }],
    query := query, page := page + 1, totalResults := 0,
    hasMorePages := false, error := some error }

/-- Outcome of one (post-retry) `search` call of the search provider:
a parsed response body, or a thrown error message. -/
inductive FetchOutcome
  | ok (data : SerperData)
  | fail (msg : Str)
  deriving DecidableEq, Repr

/-- Embeds the loop of `SerperSearchProvider.getPaginatedResults`, driven by
the sequence of `search` outcomes for pages `page, page+1, ...`: stop on an
empty page, yield and continue while `hasMorePages`, and on a thrown error
yield one `createErrorResult` page and stop.  The source fetches pages
lazily; the outcome list covers every page the loop requests. -/
def searchPaginateAux (query : Str) : List FetchOutcome → Nat → List ResultPage
  | [], _ => []
  | FetchOutcome.fail e :: _, page => [searchCreateErrorResult query page e]
  | FetchOutcome.ok data :: rest, page =>
    let results := searchNormalizeResults data query page
    if results.items.length == 0 then []
    else
      results :: (if results.hasMorePages then searchPaginateAux query rest (page + 1) else [])

/-- Search-provider pagination started at page 0. -/
def searchPaginate (query : Str) (outcomes : List FetchOutcome) : List ResultPage :=
  searchPaginateAux query outcomes 0

/-- Raw place entry of a Serper maps response (`data.places`); fields may be
absent (`openingHours`, an object, is not modeled). -/
structure PlaceItem where
  title : Option Str
  address : Option Str
  latitude : Option Str
  longitude : Option Str
  rating : Option Str
  ratingCount : Option Str
  typ : Option Str
  types : Option (List Str)
  website : Option Str
  phoneNumber : Option Str
  thumbnailUrl : Option Str
  cid : Option Str
  fid : Option Str
  placeId : Option Str
  deriving DecidableEq, Repr

/-- Normalized maps item of `SerperMapsProvider.normalizeResults`. -/
structure MapsItem where
  position : Nat
  title : Str
  address : Str
  latitude : Str
  longitude : Str
  rating : Str
  ratingCount : Str
  typ : Str
  types : List Str
  website : Str
  phoneNumber : Str
  thumbnailUrl : Str
  cid : Str
  fid : Str
  placeId : Str
  query : Str
  page : Nat
  error : Option Str
  deriving DecidableEq, Repr

/-- Normalized page produced by the maps provider. -/
structure MapsPage where
  items : List MapsItem
  query : Str
  page : Nat
  totalResults : Nat
  hasMorePages : Bool
  error : Option Str
  deriving DecidableEq, Repr

/-- Embeds `SerperMapsProvider.normalizeResults`: positions are
`page*10 + index + 1`, `totalResults` is always 0, and `hasMorePages` is
`items.length > 0`. -/
def mapsNormalizeResults (places : List PlaceItem) (query : Str) (page : Nat) : MapsPage :=
  let items := places.enum.map (fun p =>
    { position := page * 10 + p.1 + 1, title := p.2.title.getD [],
      address := p.2.address.getD [], latitude := p.2.latitude.getD [],
      longitude := p.2.longitude.getD [], rating := p.2.rating.getD [],
      ratingCount := p.2.ratingCount.getD [], typ := p.2.typ.getD [],
      types := p.2.types.getD [], website := p.2.website.getD [],
      phoneNumber := p.2.phoneNumber.getD [], thumbnailUrl := p.2.thumbnailUrl.getD [],
      cid := p.2.cid.getD [], fid := p.2.fid.getD [], placeId := p.2.placeId.getD [],
      query := query, page := page + 1, error := none : MapsItem })
  { items := items, query := query, page := page + 1, totalResults := 0,
    hasMorePages := decide (items.length > 0), error := none }

/-- Outcome of one (post-retry) `search` call of the maps provider. -/
inductive MapsFetchOutcome
  | ok (places : List PlaceItem)
  | fail (msg : Str)
  deriving DecidableEq, Repr

/-- Embeds the loop of `SerperMapsProvider.getPaginatedResults`: stop on an
empty page, yield and continue while `items.length > 0`, and on a thrown
error stop silently without yielding anything. -/
def mapsPaginateAux (query : Str) : List MapsFetchOutcome → Nat → List MapsPage
  | [], _ => []
  | MapsFetchOutcome.fail _ :: _, _ => []
  | MapsFetchOutcome.ok places :: rest, page =>
    let results := mapsNormalizeResults places query page
    if results.items.length == 0 then []
    else
      results ::
        (if decide (results.items.length > 0) then mapsPaginateAux query rest (page + 1) else [])

/-- Maps-provider pagination started at page 0. -/
def mapsPaginate (query : Str) (outcomes : List MapsFetchOutcome) : List MapsPage :=
  mapsPaginateAux query outcomes 0

/-- The normally-yielded pages for a list of successful response bodies
starting at a given page index (specification helper for the paginator
theorems, built from `searchNormalizeResults`). -/
def searchOkPages (query : Str) : List SerperData → Nat → List ResultPage
  | [], _ => []
  | d :: ds, page => searchNormalizeResults d query page :: searchOkPages query ds (page + 1)

/-- The normally-yielded maps pages for a list of successful response bodies
starting at a given page index. -/
def mapsOkPages (query : Str) : List (List PlaceItem) → Nat → List MapsPage
  | [], _ => []
  | p :: ps, page => mapsNormalizeResults p query page :: mapsOkPages query ps (page + 1)

/-- Observable trace of one provider `search` call under the retry loop:
the final result, the number of attempts made, and the sequence of delays
awaited between attempts. -/
structure RetryTrace (α : Type) where
  result : Except Str α
  attemptsMade : Nat
  delays : List Nat
  deriving Repr

/-- The retry loop body shared by both providers: try `res attempt`; on
success return it; on failure, if attempts remain, wait `delayMs * attempt`
and retry, otherwise return the last error.  `fuel` is the number of
attempts still allowed (loop bound `attempt <= maxRetries`). -/
def retryAux {α : Type} (res : Nat → Except Str α) (delayMs : Nat) :
    Nat → Nat → RetryTrace α
  | attempt, 0 => { result := Except.error [], attemptsMade := attempt - 1, delays := [] }
  | attempt, fuel + 1 =>
    match res attempt with
    | Except.ok v => { result := Except.ok v, attemptsMade := attempt, delays := [] }
    | Except.error e =>
      if fuel == 0 then { result := Except.error e, attemptsMade := attempt, delays := [] }
      else
        let t := retryAux res delayMs (attempt + 1) fuel
        { result := t.result, attemptsMade := t.attemptsMade,
          delays := delayMs * attempt :: t.delays }

/-- Run the retry loop from attempt 1 with `maxRetries` attempts allowed. -/
def runRetries {α : Type} (res : Nat → Except Str α) (maxRetries delayMs : Nat) :
    RetryTrace α :=
  retryAux res delayMs 1 maxRetries

/-- The wrapped failure message of `SerperSearchProvider.search` after all
retries fail (`maxRetries` is 3 in the source). -/
def searchFailMsg (query : Str) (page : Nat) (lastMsg : Str) : Str :=
  strOf ("Failed to fetch results for query \"") ++ query ++ strOf ("\", page ") ++
    natStr page ++ strOf (" after 3 attempts. Last error: ") ++ lastMsg

/-- The wrapped failure message of `SerperMapsProvider.search`. -/
def mapsFailMsg (query : Str) (page : Nat) (lastMsg : Str) : Str :=
  strOf ("Failed to fetch maps results for query \"") ++ query ++ strOf ("\", page ") ++
    natStr page ++ strOf (" after 3 attempts. Last error: ") ++ lastMsg

/-- Embeds `SerperSearchProvider.search` over the outcomes of the individual
attempts (`res k` is the result of attempt `k`): `maxRetries = 3`,
`retryDelay = 1000`, and after exhausting attempts the error is wrapped with
`searchFailMsg` carrying the last underlying message. -/
def serperSearchCall (query : Str) (page : Nat)
    (res : Nat → Except Str SerperData) : RetryTrace SerperData :=
  let t := runRetries res 3 1000
  match t.result with
  | Except.ok _ => t
  | Except.error last =>
    { t with result := Except.error (searchFailMsg query page last) }

/-- Embeds `SerperMapsProvider.search` the same way. -/
def serperMapsCall (query : Str) (page : Nat)
    (res : Nat → Except Str (List PlaceItem)) : RetryTrace (List PlaceItem) :=
  let t := runRetries res 3 1000
  match t.result with
  | Except.ok _ => t
  | Except.error last =>
    { t with result := Except.error (mapsFailMsg query page last) }

/-- Test fixture: an organic entry with absent fields. -/
def emptyOrganic : OrganicItem :=
  { title := none, snippet := none, link := none }

/-- Test fixture: a search response body with `n` organic entries. -/
def serperBatch (n : Nat) : SerperData :=
  { organic := List.replicate n emptyOrganic, totalResults := 0 }

/-- Test fixture: a maps place entry with absent fields. -/
def emptyPlace : PlaceItem :=
  { title := none, address := none, latitude := none, longitude := none,
    rating := none, ratingCount := none, typ := none, types := none,
    website := none, phoneNumber := none, thumbnailUrl := none, cid := none,
    fid := none, placeId := none }

/-- A string begins with itself. -/
theorem leadsWith_refl (s : Str) : leadsWith s s = true := by
  induction s with
  | nil => rfl
  | cons c cs ih => simp [leadsWith, ih]

/-- `leadsWith` characterizes prefix decomposition. -/
theorem leadsWith_iff (pat s : Str) : leadsWith pat s = true ↔ ∃ t, s = pat ++ t := by
  induction pat generalizing s with
  | nil => simp [leadsWith]
  | cons p ps ih =>
    cases s with
    | nil =>
      simp [leadsWith]
    | cons c cs =>
      simp only [leadsWith, Bool.and_eq_true, beq_iff_eq, ih, List.cons_append,
        List.cons.injEq]
      constructor
      · rintro ⟨rfl, t, rfl⟩
        exact ⟨t, rfl, rfl⟩
      · rintro ⟨t, rfl, rfl⟩
        exact ⟨rfl, t, rfl⟩

/-- Every string contains itself as a substring. -/
theorem hasSub_refl (s : Str) : hasSub s s = true := by
  cases s with
  | nil => rfl
  | cons c cs => simp [hasSub, leadsWith_refl]

/-- A substring of the right part is a substring of an appended string. -/
theorem hasSub_append_right (a b p : Str) (h : hasSub b p = true) :
    hasSub (a ++ b) p = true := by
  induction a with
  | nil => simpa using h
  | cons c cs ih => simp [hasSub, ih]

/-- `hasSub` characterized by decomposition. -/
theorem hasSub_iff (s p : Str) : hasSub s p = true ↔ ∃ a b, s = a ++ p ++ b := by
  induction s with
  | nil =>
    simp only [hasSub, List.isEmpty_iff]
    constructor
    · rintro rfl
      exact ⟨[], [], rfl⟩
    · rintro ⟨a, b, h⟩
      rcases List.append_eq_nil.mp h.symm with ⟨h1, h2⟩
      exact (List.append_eq_nil.mp h1).2
  | cons c cs ih =>
    simp only [hasSub, Bool.or_eq_true, leadsWith_iff, ih]
    constructor
    · rintro (⟨t, ht⟩ | ⟨a, b, hab⟩)
      · exact ⟨[], t, by simpa using ht⟩
      · exact ⟨c :: a, b, by simp [hab]⟩
    · rintro ⟨a, b, hab⟩
      cases a with
      | nil => exact Or.inl ⟨b, by simpa using hab⟩
      | cons a0 as =>
        right
        simp only [List.cons_append, List.cons.injEq] at hab
        exact ⟨as, b, hab.2⟩

/-- `splitOnDot` never returns the empty list. -/
theorem splitOnDot_ne_nil (s : Str) : splitOnDot s ≠ [] := by
  cases s with
  | nil => simp [splitOnDot]
  | cons c cs =>
    simp only [splitOnDot]
    split
    · simp
    · split
      · simp
      · simp

/-- Splitting on dots distributes over an append at a dot boundary. -/
theorem splitOnDot_append (a b : Str) :
    splitOnDot (a ++ '.' :: b) = splitOnDot a ++ splitOnDot b := by
  induction a with
  | nil => simp [splitOnDot]
  | cons c cs ih =>
    by_cases hc : c = '.'
    · subst hc
      simp [splitOnDot, ih]
    · simp only [List.cons_append, splitOnDot, beq_iff_eq, if_neg hc, List.append_eq]
      rcases hs : splitOnDot cs with _ | ⟨s, ss⟩
      · exact absurd hs (splitOnDot_ne_nil cs)
      · rw [ih, hs]
        simp

/-- Every string ends with itself appended to anything: suffix test via
decomposition. -/
theorem trailsWith_iff (s pat : Str) : trailsWith s pat = true ↔ ∃ pre, s = pre ++ pat := by
  unfold trailsWith
  rw [leadsWith_iff]
  constructor
  · rintro ⟨t, ht⟩
    refine ⟨t.reverse, ?_⟩
    have := congrArg List.reverse ht
    simpa [List.reverse_append] using this
  · rintro ⟨pre, rfl⟩
    exact ⟨pre.reverse, by simp [List.reverse_append]⟩

/-- A substring with head `c` witnesses that `c` occurs in the string. -/
theorem mem_of_hasSub (s p : Str) (c : Char) (h : hasSub s (c :: p) = true) : c ∈ s := by
  rcases (hasSub_iff s (c :: p)).mp h with ⟨a, b, rfl⟩
  simp

/-- Removing a left part free of the substring's head preserves `hasSub`. -/
theorem hasSub_append_elim (a s p : Str) (c : Char)
    (h : hasSub (a ++ s) (c :: p) = true) (hc : c ∉ a) : hasSub s (c :: p) = true := by
  induction a with
  | nil => simpa using h
  | cons x xs ih =>
    simp only [List.cons_append, hasSub, Bool.or_eq_true] at h
    rcases h with h | h
    · rw [leadsWith_iff] at h
      rcases h with ⟨t, ht⟩
      simp only [List.cons_append, List.cons.injEq] at ht
      exact absurd ht.1.symm (by simpa using fun hx => hc (by simp [hx]))
    · exact ih h (fun hx => hc (List.mem_cons_of_mem _ hx))

/-- `splitAtFirst` finds nothing exactly when the character is absent. -/
theorem splitAtFirst_eq_none_iff (t : Char) (s : Str) :
    splitAtFirst t s = none ↔ t ∉ s := by
  induction s with
  | nil => simp [splitAtFirst]
  | cons c cs ih =>
    simp only [splitAtFirst]
    by_cases hc : c = t
    · subst hc
      simp
    · rw [if_neg (by simpa using hc)]
      rcases h : splitAtFirst t cs with _ | ⟨a, b⟩
      · simpa [hc, Ne.symm] using (ih.mp h)
      · simp only [List.mem_cons]
        constructor
        · intro hh
          exact absurd hh (by simp)
        · intro hh
          exact absurd h (by
            intro hcontra
            have : t ∈ cs := by
              by_contra hmem
              rw [← ih] at hmem
              simp [hmem] at hcontra
            exact hh (Or.inr this))

/-- Successful `splitAtFirst` decomposes the string at the first occurrence. -/
theorem splitAtFirst_eq_some (t : Char) (s a b : Str)
    (h : splitAtFirst t s = some (a, b)) : s = a ++ t :: b ∧ t ∉ a := by
  induction s generalizing a with
  | nil => simp [splitAtFirst] at h
  | cons c cs ih =>
    simp only [splitAtFirst] at h
    by_cases hc : c = t
    · subst hc
      simp only [beq_self_eq_true, if_true, Option.some.injEq, Prod.mk.injEq] at h
      rcases h with ⟨rfl, rfl⟩
      simp
    · rw [if_neg (by simpa using hc)] at h
      rcases hsp : splitAtFirst t cs with _ | ⟨x, y⟩
      · rw [hsp] at h
        simp at h
      · rw [hsp] at h
        simp only [Option.some.injEq, Prod.mk.injEq] at h
        rcases h with ⟨rfl, rfl⟩
        rcases ih x hsp with ⟨rfl, hnx⟩
        constructor
        · simp
        · simp only [List.mem_cons]
          rintro (h | h)
          · exact hc h.symm
          · exact hnx h

/-- `splitAtFirst` over an append whose left part avoids the character. -/
theorem splitAtFirst_append_left (t : Char) (a b : Str) (ha : t ∉ a) :
    splitAtFirst t (a ++ b) =
      (splitAtFirst t b).map (fun pr => (a ++ pr.1, pr.2)) := by
  induction a with
  | nil =>
    simp only [List.nil_append]
    rcases h : splitAtFirst t b with _ | ⟨x, y⟩ <;> simp
  | cons c cs ih =>
    have hc : ¬(c = t) := fun h => ha (by simp [h])
    have hcs : t ∉ cs := fun h => ha (List.mem_cons_of_mem _ h)
    simp only [List.cons_append, splitAtFirst, List.append_eq]
    rw [if_neg (by simpa using hc), ih hcs]
    rcases h : splitAtFirst t b with _ | ⟨x, y⟩ <;> simp [h]

/-- First-match characterization of the scan inside `findFirstDomainMatch`:
the fold returns `none` exactly when no item matches, and a returned record
comes from the first matching item in scan order. -/
theorem findSomeMatch_first (T : Str) (items : List SearchItem) :
    (items.findSome? (fun item =>
        if itemMatches T item then
          some { link := item.link, title := item.title, position := item.position : MatchResult }
        else none) = none ↔ ∀ item ∈ items, itemMatches T item = false) ∧
    (∀ r, items.findSome? (fun item =>
        if itemMatches T item then
          some { link := item.link, title := item.title, position := item.position : MatchResult }
        else none) = some r →
      ∃ n, ∃ hn : n < items.length,
        itemMatches T (items.get ⟨n, hn⟩) = true ∧
        r = { link := (items.get ⟨n, hn⟩).link, title := (items.get ⟨n, hn⟩).title,
              position := (items.get ⟨n, hn⟩).position } ∧
        ∀ item ∈ items.take n, itemMatches T item = false) := by
  induction items with
  | nil => simp
  | cons i is ih =>
    by_cases hi : itemMatches T i = true
    · constructor
      · simp [List.findSome?_cons, hi]
      · intro r hr
        simp only [List.findSome?_cons, hi, if_true, Option.some.injEq] at hr
        refine ⟨0, by simp, ?_, ?_, ?_⟩
        · simpa using hi
        · simpa using hr.symm
        · simp
    · have hinone : itemMatches T i = false := by simpa using hi
      constructor
      · simp only [List.findSome?_cons, hinone, Bool.false_eq_true, if_false]
        rw [ih.1]
        constructor
        · intro h item hm
          rcases List.mem_cons.mp hm with rfl | hm2
          · exact hinone
          · exact h item hm2
        · intro h item hm
          exact h item (List.mem_cons_of_mem _ hm)
      · intro r hr
        simp only [List.findSome?_cons, hinone, Bool.false_eq_true, if_false] at hr
        rcases ih.2 r hr with ⟨n, hn, hmatch, hrec, hpre⟩
        refine ⟨n + 1, by simpa using Nat.succ_lt_succ hn, ?_, ?_, ?_⟩
        · simpa using hmatch
        · simpa using hrec
        · intro item hm
          simp only [List.take_succ_cons, List.mem_cons] at hm
          rcases hm with rfl | hm2
          · exact hinone
          · exact hpre item hm2

/-- For a non-falsy target, `findFirstDomainMatch` reduces to the scan. -/
theorem findFirstDomainMatch_eq_scan (items : List SearchItem) (domain : Str)
    (hne : normalizeDomain domain ≠ []) :
    findFirstDomainMatch items domain = items.findSome? (fun item =>
      if itemMatches (normalizeDomain domain) item then
        some { link := item.link, title := item.title, position := item.position : MatchResult }
      else none) := by
  unfold findFirstDomainMatch
  rw [if_neg (by simpa [List.isEmpty_iff] using hne)]

/-- Claim C4 (amended): for every batch and every domain whose normalized
target is non-empty, `findFirstDomainMatch` returns no match exactly when no
item satisfies any tier, and a returned match is the record of the earliest
item in scan order that satisfies some tier (all earlier items fail every
tier), never a later item. -/
theorem findFirstDomainMatch_earliest (items : List SearchItem) (domain : Str)
    (hne : normalizeDomain domain ≠ []) :
    (findFirstDomainMatch items domain = none ↔
      ∀ item ∈ items, itemMatches (normalizeDomain domain) item = false) ∧
    (∀ r, findFirstDomainMatch items domain = some r →
      ∃ n, ∃ hn : n < items.length,
        itemMatches (normalizeDomain domain) (items.get ⟨n, hn⟩) = true ∧
        r = { link := (items.get ⟨n, hn⟩).link, title := (items.get ⟨n, hn⟩).title,
              position := (items.get ⟨n, hn⟩).position } ∧
        ∀ item ∈ items.take n, itemMatches (normalizeDomain domain) item = false) := by
  rw [findFirstDomainMatch_eq_scan items domain hne]
  exact findSomeMatch_first (normalizeDomain domain) items

/-- Witness for C4's amended theorem at a concrete input: the hypothesis is
discharged for the domain `example.com`. -/
theorem findFirstDomainMatch_earliest_witness :
    normalizeDomain (strOf ("example.com")) ≠ [] ∧
    (findFirstDomainMatch [] (strOf ("example.com")) = none ↔
      ∀ item ∈ ([] : List SearchItem),
        itemMatches (normalizeDomain (strOf ("example.com"))) item = false) :=
  ⟨by decide, (findFirstDomainMatch_earliest [] (strOf ("example.com")) (by decide)).1⟩

/-- Counterexample to claim C4 as stated: with the empty normalized target
(a legal output of `normalizeDomain`), an item can satisfy the partial tier
while `findFirstDomainMatch` still returns no match, because of the falsy
guard on the target. -/
theorem findFirstDomainMatch_emptyTarget_gap :
    normalizeDomain [] = [] ∧
    wordMatch (extractHostname (strOf ("https://x.org/"))) [] = true ∧
    findFirstDomainMatch
      [{ title := [], snippet := [], link := strOf ("https://x.org/"),
         position := 1, query := [], page := 1, error := none }] [] = none := by
  decide

/-- Claim C5: the matcher decides the four concrete boundary cases as the
specification states: exact match on identical hostnames, subdomain match
for `blog.example.com` against `example.com`, partial (segment-containment)
match for `my-example-shop.com` against `example`, and no match at all for
`otherexample.net` against `example.com`; both targets are fixed points of
domain normalization. -/
theorem tier_concrete_cases :
    normalizeDomain (strOf ("example.com")) = strOf ("example.com") ∧
    normalizeDomain (strOf ("example")) = strOf ("example") ∧
    tierOf (strOf ("example.com")) (strOf ("example.com")) = some MatchType.exact ∧
    tierOf (strOf ("blog.example.com")) (strOf ("example.com")) = some MatchType.subdomain ∧
    tierOf (strOf ("my-example-shop.com")) (strOf ("example")) = some MatchType.partWord ∧
    tierOf (strOf ("otherexample.net")) (strOf ("example.com")) = none ∧
    wordMatch (strOf ("otherexample.net")) (strOf ("example.com")) = false := by
  decide

/-- Claim C9: for every hostname and non-empty target, the exact tier and
the subdomain tier each imply the partial tier, so the three-tier
disjunction used by the matcher is equivalent to the partial tier alone. -/
theorem tiers_collapse_to_wordTier (host target : Str) (_hne : target ≠ []) :
    (exactMatch host target = true → wordMatch host target = true) ∧
    (subdomainMatch host target = true → wordMatch host target = true) ∧
    ((exactMatch host target || subdomainMatch host target || wordMatch host target)
      = wordMatch host target) := by
  have hexact : exactMatch host target = true → wordMatch host target = true := by
    intro h
    have : host = target := by simpa [exactMatch] using h
    subst this
    unfold wordMatch
    rw [List.all_eq_true]
    intro tp htp
    rw [List.any_eq_true]
    exact ⟨tp, htp, hasSub_refl tp⟩
  have hsub : subdomainMatch host target = true → wordMatch host target = true := by
    intro h
    rcases (trailsWith_iff host ('.' :: target)).mp (by simpa [subdomainMatch] using h) with
      ⟨pre, rfl⟩
    unfold wordMatch
    rw [List.all_eq_true]
    intro tp htp
    rw [List.any_eq_true]
    refine ⟨tp, ?_, hasSub_refl tp⟩
    rw [splitOnDot_append]
    exact List.mem_append_right _ htp
  refine ⟨hexact, hsub, ?_⟩
  rcases hw : wordMatch host target with _ | _
  · rcases he : exactMatch host target with _ | _
    · rcases hs : subdomainMatch host target with _ | _
      · simp
      · rw [hsub hs] at hw
        exact absurd hw (by simp)
    · rw [hexact he] at hw
      exact absurd hw (by simp)
  · simp

/-- Witness for C9 at a concrete hostname/target pair. -/
theorem tiers_collapse_to_wordTier_witness :
    strOf ("example.com") ≠ [] ∧
    ((exactMatch (strOf ("blog.example.com")) (strOf ("example.com")) ||
        subdomainMatch (strOf ("blog.example.com")) (strOf ("example.com")) ||
        wordMatch (strOf ("blog.example.com")) (strOf ("example.com")))
      = wordMatch (strOf ("blog.example.com")) (strOf ("example.com"))) :=
  ⟨by decide,
   (tiers_collapse_to_wordTier (strOf ("blog.example.com")) (strOf ("example.com"))
      (by decide)).2.2⟩

/-- Claim C10: `extractHostname` returns the empty string whenever URL
parsing fails (in the source this is the catch branch, so the function never
throws); consequently an item with an unparseable link matches no tier for
any target all of whose dot-segments are non-empty, and
`findFirstDomainMatch` returns no match whenever the normalized target is
empty. -/
theorem extractHostname_total_guards :
    (∀ url : Str, urlHostname url = none → extractHostname url = []) ∧
    (∀ (target : Str) (item : SearchItem), urlHostname item.link = none →
      (∀ tp ∈ splitOnDot target, tp ≠ []) → itemMatches target item = false) ∧
    (∀ (items : List SearchItem) (domain : Str), normalizeDomain domain = [] →
      findFirstDomainMatch items domain = none) := by
  have hext : ∀ url : Str, urlHostname url = none → extractHostname url = [] := by
    intro url h
    unfold extractHostname
    rw [h]
  refine ⟨hext, ?_, ?_⟩
  · intro target item h hseg
    have htarget : target ≠ [] := by
      intro hcon
      subst hcon
      exact hseg [] (by simp [splitOnDot]) rfl
    unfold itemMatches
    rw [hext item.link h]
    have he : exactMatch [] target = false := by
      simp only [exactMatch, beq_eq_false_iff_ne, ne_eq]
      exact fun hc => htarget hc.symm
    have hs : subdomainMatch [] target = false := by
      rcases h2 : subdomainMatch [] target with _ | _
      · rfl
      · rcases (trailsWith_iff [] ('.' :: target)).mp (by simpa [subdomainMatch] using h2) with
          ⟨pre, hpre⟩
        simp at hpre
    have hw : wordMatch [] target = false := by
      rcases h2 : wordMatch [] target with _ | _
      · rfl
      · exfalso
        unfold wordMatch at h2
        rw [List.all_eq_true] at h2
        rcases List.exists_mem_of_ne_nil _ (splitOnDot_ne_nil target) with ⟨tp, htp⟩
        have := h2 tp htp
        rw [List.any_eq_true] at this
        rcases this with ⟨hp, hhp, hsub2⟩
        have hhp2 : hp = [] := by simpa [splitOnDot] using hhp
        subst hhp2
        have : tp = [] := by simpa [hasSub, List.isEmpty_iff] using hsub2
        exact hseg tp htp this
    show (exactMatch [] target || subdomainMatch [] target || wordMatch [] target) = false
    rw [he, hs, hw]
    rfl
  · intro items domain h
    unfold findFirstDomainMatch
    rw [h]
    simp

/-- Witness for C10: concrete unparseable link and concrete empty-target
batch. -/
theorem extractHostname_total_guards_witness :
    extractHostname (strOf ("not a url")) = [] ∧
    findFirstDomainMatch [] [] = none :=
  ⟨extractHostname_total_guards.1 (strOf ("not a url")) (by decide),
   extractHostname_total_guards.2.2 [] [] (by decide)⟩

/-- Scanning an empty page never produces a match. -/
theorem findFirstDomainMatch_nil (domain : Str) : findFirstDomainMatch [] domain = none := by
  simp [findFirstDomainMatch]

/-- Field shape of a not-found summary. -/
theorem noMatchSummary_fields (q d : Str) (b : Bool) (mx : Nat) :
    (saveDomainNoMatchSummary q d b mx).link = none ∧
    (saveDomainNoMatchSummary q d b mx).title = none ∧
    ((saveDomainNoMatchSummary q d b mx).rank = RankValue.str ('>' :: natStr mx) ∨
      (saveDomainNoMatchSummary q d b mx).rank = RankValue.null) := by
  rcases b with _ | _ <;> simp [saveDomainNoMatchSummary]

/-- Field shape of a match summary: link and title come from the match
record; the rank is the match position or the hardcoded `>100` string. -/
theorem matchSummary_fields (q d : Str) (m : MatchResult) (b : Bool) (mx : Nat) :
    (saveDomainMatchSummary q d m b mx).link = some m.link ∧
    (saveDomainMatchSummary q d m b mx).title = some m.title ∧
    ((saveDomainMatchSummary q d m b mx).rank = RankValue.pos m.position ∨
      (saveDomainMatchSummary q d m b mx).rank = RankValue.str (strOf (">100"))) := by
  rcases b with _ | _ <;> simp [saveDomainMatchSummary]

/-- Claim C1 (amended): every summary saved by the domain-mode query loop is
either a match summary — link and title taken from a match record actually
returned by `findFirstDomainMatch` on one of the scanned pages, rank equal
to that record's position (budget not reached) or to the literal string
`>100` (budget reached; the source hardcodes `100` here regardless of the
configured `maxResults`) — or a not-found summary with no link/title and
rank `>` + maxResults or `null`. -/
theorem processQueryDomain_rank_shape (query domainIn : Str) (maxResults : Nat)
    (pages : List (List SearchItem)) (total : Nat) :
    (∃ m : MatchResult,
      (∃ page ∈ pages, findFirstDomainMatch page domainIn = some m) ∧
      (processQueryDomainAux query domainIn maxResults pages total).link = some m.link ∧
      (processQueryDomainAux query domainIn maxResults pages total).title = some m.title ∧
      ((processQueryDomainAux query domainIn maxResults pages total).rank
          = RankValue.pos m.position ∨
        (processQueryDomainAux query domainIn maxResults pages total).rank
          = RankValue.str (strOf (">100")))) ∨
    ((processQueryDomainAux query domainIn maxResults pages total).link = none ∧
      (processQueryDomainAux query domainIn maxResults pages total).title = none ∧
      ((processQueryDomainAux query domainIn maxResults pages total).rank
          = RankValue.str ('>' :: natStr maxResults) ∨
        (processQueryDomainAux query domainIn maxResults pages total).rank
          = RankValue.null)) := by
  induction pages generalizing total with
  | nil =>
    right
    exact noMatchSummary_fields query domainIn _ maxResults
  | cons items rest ih =>
    rcases hm : findFirstDomainMatch items domainIn with _ | m
    · by_cases hb :
        (!(maxResults == 0) && decide (total + items.length ≥ maxResults)) = true
      · right
        simp only [processQueryDomainAux, hm, hb, if_true]
        exact noMatchSummary_fields query domainIn _ maxResults
      · have hb2 :
          (!(maxResults == 0) && decide (total + items.length ≥ maxResults)) = false := by
          simpa using hb
        simp only [processQueryDomainAux, hm, hb2, Bool.false_eq_true, if_false]
        rcases ih (total + items.length) with ⟨m, ⟨pg, hpg, hpgm⟩, hrest⟩ | hright
        · exact Or.inl ⟨m, ⟨pg, List.mem_cons_of_mem _ hpg, hpgm⟩, hrest⟩
        · exact Or.inr hright
    · left
      refine ⟨m, ⟨items, List.mem_cons_self _ _, hm⟩, ?_⟩
      simp only [processQueryDomainAux, hm]
      exact matchSummary_fields query domainIn m _ maxResults

/-- Counterexample to claim C1 as stated: with `maxResults = 1` and a match
found on a page that reaches the budget, the saved summary's rank is the
literal string `>100` — neither the matched item's position, nor
`>` + maxResults (which would be `>1`), nor `null`. -/
theorem summary_rank_not_from_config :
    (processQueryDomain (strOf ("q")) (strOf ("example.com")) 1
        [[{ title := strOf ("t"), snippet := [], link := strOf ("https://example.com/a"),
            position := 1, query := [], page := 1, error := none }]]).rank
      = RankValue.str (strOf (">100")) ∧
    (processQueryDomain (strOf ("q")) (strOf ("example.com")) 1
        [[{ title := strOf ("t"), snippet := [], link := strOf ("https://example.com/a"),
            position := 1, query := [], page := 1, error := none }]]).link
      = some (strOf ("https://example.com/a")) ∧
    RankValue.str (strOf (">100")) ≠ RankValue.pos 1 ∧
    RankValue.str (strOf (">100")) ≠ RankValue.str ('>' :: natStr 1) ∧
    RankValue.str (strOf (">100")) ≠ RankValue.null := by
  decide

/-- The domain-mode loop over pages that are all empty finalizes a not-found
summary whose `reachedMaxResults` flag follows the source's
`!isUnlimited && (totalResults >= maxResults || totalResults === 0)`. -/
theorem processQueryDomainAux_allEmpty (q d : Str) (mx : Nat)
    (pages : List (List SearchItem)) (total : Nat) (hp : ∀ p ∈ pages, p = []) :
    processQueryDomainAux q d mx pages total
      = saveDomainNoMatchSummary q d
          (!(mx == 0) && (decide (total ≥ mx) || total == 0)) mx := by
  induction pages generalizing total with
  | nil => rfl
  | cons p rest ih =>
    have hpnil : p = [] := hp p (List.mem_cons_self _ _)
    subst hpnil
    have hrest : ∀ q2 ∈ rest, q2 = [] := fun q2 hq2 => hp q2 (List.mem_cons_of_mem _ hq2)
    simp only [processQueryDomainAux, findFirstDomainMatch_nil, List.length_nil,
      Nat.add_zero]
    by_cases hb : (!(mx == 0) && decide (total ≥ mx)) = true
    · rw [if_pos hb]
    · rw [if_neg hb]
      exact ih total hrest

/-- Claim C2 (amended): a domain-mode query whose pagination returned zero
items in total and found no match is finalized with rank `>` + maxResults
when `maxResults > 0`; in the unlimited case `maxResults = 0` the rank is
`null` instead (the `!isUnlimited` conjunct suppresses the sentinel). -/
theorem processQueryDomain_zeroItems (query domainIn : Str) (maxResults : Nat)
    (pages : List (List SearchItem)) (hp : ∀ p ∈ pages, p = []) :
    (maxResults ≠ 0 →
      (processQueryDomain query domainIn maxResults pages).rank
        = RankValue.str ('>' :: natStr maxResults)) ∧
    (maxResults = 0 →
      (processQueryDomain query domainIn maxResults pages).rank = RankValue.null) := by
  unfold processQueryDomain
  rw [processQueryDomainAux_allEmpty query domainIn maxResults pages 0 hp]
  constructor
  · intro h
    simp [saveDomainNoMatchSummary, h]
  · intro h
    subst h
    simp [saveDomainNoMatchSummary]

/-- Witness for C2's amended theorem: `maxResults = 30`, no pages at all. -/
theorem processQueryDomain_zeroItems_witness :
    (processQueryDomain (strOf ("q")) (strOf ("example.com")) 30 []).rank
      = RankValue.str ('>' :: natStr 30) :=
  (processQueryDomain_zeroItems (strOf ("q")) (strOf ("example.com")) 30 []
    (by simp)).1 (by decide)

/-- Counterexample to claim C2 as stated: in the unlimited configuration
`maxResults = 0`, a query with zero items and no match is finalized with
rank `null`, not with the string `>0`. -/
theorem noMatch_unlimited_rank_is_null :
    (processQueryDomain (strOf ("q")) (strOf ("example.com")) 0 []).rank = RankValue.null ∧
    RankValue.null ≠ RankValue.str ('>' :: natStr 0) := by
  decide

/-- Search normalization preserves the batch size. -/
theorem searchNormalize_items_len (d : SerperData) (q : Str) (page : Nat) :
    (searchNormalizeResults d q page).items.length = d.organic.length := by
  simp [searchNormalizeResults, List.enum_length]

/-- Maps normalization preserves the batch size. -/
theorem mapsNormalize_items_len (b : List PlaceItem) (q : Str) (page : Nat) :
    (mapsNormalizeResults b q page).items.length = b.length := by
  simp [mapsNormalizeResults, List.enum_length]

/-- Under a non-increasing batch-size chain, everything after an empty batch
is empty. -/
theorem chain_le_nil_all (rest : List (List PlaceItem))
    (h : List.Chain' (fun (a b : List PlaceItem) => b.length ≤ a.length) ([] :: rest)) :
    ∀ b ∈ rest, b = [] := by
  induction rest with
  | nil => simp
  | cons r rs ih =>
    rcases List.chain'_cons.mp h with ⟨hr, htail⟩
    have hrnil : r = [] := by
      have : r.length = 0 := Nat.le_zero.mp (by simpa using hr)
      simpa using this
    subst hrnil
    intro b hb
    rcases List.mem_cons.mp hb with rfl | hb2
    · rfl
    · exact ih htail b hb2

/-- Under the full-page chain condition, everything after an empty organic
batch is empty. -/
theorem chain_full_nil_all (rest : List SerperData)
    (d0 : SerperData)
    (h : List.Chain' (fun (a b : SerperData) => b.organic ≠ [] → a.organic.length = 10)
      (d0 :: rest))
    (h0 : d0.organic = []) : ∀ b ∈ rest, b.organic = [] := by
  induction rest generalizing d0 with
  | nil => simp
  | cons r rs ih =>
    rcases List.chain'_cons.mp h with ⟨hr, htail⟩
    have hrnil : r.organic = [] := by
      by_contra hc
      have := hr hc
      rw [h0] at this
      simp at this
    intro b hb
    rcases List.mem_cons.mp hb with rfl | hb2
    · exact hrnil
    · exact ih r htail hrnil b hb2

/-- One step of maps pagination on an empty batch: stop. -/
theorem mapsPaginateAux_cons_nil (q : Str) (rest : List MapsFetchOutcome) (page : Nat) :
    mapsPaginateAux q (MapsFetchOutcome.ok [] :: rest) page = [] := by
  simp [mapsPaginateAux, mapsNormalizeResults]

/-- One step of maps pagination on a non-empty batch: yield and continue. -/
theorem mapsPaginateAux_cons_ne (q : Str) (b : List PlaceItem)
    (rest : List MapsFetchOutcome) (page : Nat) (hb : b ≠ []) :
    mapsPaginateAux q (MapsFetchOutcome.ok b :: rest) page
      = mapsNormalizeResults b q page :: mapsPaginateAux q rest (page + 1) := by
  have hcond : ((mapsNormalizeResults b q page).items.length == 0) = false := by
    rw [mapsNormalize_items_len]
    simpa using hb
  have hpos : decide ((mapsNormalizeResults b q page).items.length > 0) = true := by
    rw [mapsNormalize_items_len]
    simpa using List.length_pos.mpr hb
  simp only [mapsPaginateAux, hcond, Bool.false_eq_true, if_false, hpos, if_true]

/-- Maps pagination yields one page per non-empty batch, for batch sequences
with non-increasing sizes ending in an empty batch. -/
theorem mapsPaginateAux_length (q : Str) (batches : List (List PlaceItem)) (page : Nat)
    (hchain : List.Chain' (fun (a b : List PlaceItem) => b.length ≤ a.length) batches)
    (hlast : batches.getLast? = some []) :
    (mapsPaginateAux q (batches.map MapsFetchOutcome.ok) page).length
      = (batches.filter (fun l => !l.isEmpty)).length := by
  induction batches generalizing page with
  | nil => simp at hlast
  | cons b bs ih =>
    by_cases hb : b = []
    · subst hb
      have hall : ∀ x ∈ bs, x = [] := chain_le_nil_all bs hchain
      have hfilter : bs.filter (fun l => !l.isEmpty) = [] := by
        rw [List.filter_eq_nil_iff]
        intro a ha
        simp [hall a ha]
      simp [mapsPaginateAux_cons_nil, List.filter_cons, hfilter]
    · rcases bs with _ | ⟨b2, bs2⟩
      · exfalso
        have : b = [] := by simpa using hlast
        exact hb this
      · have hlast2 : (b2 :: bs2).getLast? = some [] := by
          simpa [List.getLast?_cons_cons] using hlast
        have hchain2 := (List.chain'_cons.mp hchain).2
        rw [List.map_cons, mapsPaginateAux_cons_ne q b _ page hb, List.length_cons,
          ih (page + 1) hchain2 hlast2]
        simp [List.filter_cons, hb]

/-- One step of search pagination on an empty batch: stop. -/
theorem searchPaginateAux_cons_nil (q : Str) (ds : SerperData)
    (rest : List FetchOutcome) (page : Nat) (hd : ds.organic = []) :
    searchPaginateAux q (FetchOutcome.ok ds :: rest) page = [] := by
  have hcond : ((searchNormalizeResults ds q page).items.length == 0) = true := by
    rw [searchNormalize_items_len, hd]
    rfl
  simp only [searchPaginateAux, hcond, if_true]

/-- One step of search pagination on a full batch: yield and continue. -/
theorem searchPaginateAux_cons_full (q : Str) (ds : SerperData)
    (rest : List FetchOutcome) (page : Nat) (hd : ds.organic.length = 10) :
    searchPaginateAux q (FetchOutcome.ok ds :: rest) page
      = searchNormalizeResults ds q page :: searchPaginateAux q rest (page + 1) := by
  have hcond : ((searchNormalizeResults ds q page).items.length == 0) = false := by
    rw [searchNormalize_items_len, hd]
    rfl
  have hmore : (searchNormalizeResults ds q page).hasMorePages = true := by
    simp only [searchNormalizeResults, List.length_map, List.enum_length, hd]
    rfl
  simp only [searchPaginateAux, hcond, Bool.false_eq_true, if_false, hmore, if_true]

/-- One step of search pagination on a non-empty, non-full batch: yield the
page and stop. -/
theorem searchPaginateAux_cons_short (q : Str) (ds : SerperData)
    (rest : List FetchOutcome) (page : Nat) (hne : ds.organic ≠ [])
    (hd : ds.organic.length ≠ 10) :
    searchPaginateAux q (FetchOutcome.ok ds :: rest) page
      = [searchNormalizeResults ds q page] := by
  have hcond : ((searchNormalizeResults ds q page).items.length == 0) = false := by
    rw [searchNormalize_items_len]
    simpa using hne
  have hmore : (searchNormalizeResults ds q page).hasMorePages = false := by
    simp only [searchNormalizeResults, List.length_map, List.enum_length]
    simpa using hd
  simp only [searchPaginateAux, hcond, Bool.false_eq_true, if_false, hmore, if_true]

/-- After a non-full batch, the full-page chain condition forces all later
batches to be empty. -/
theorem chain_full_after (d : SerperData) (ds : List SerperData)
    (hchain : List.Chain' (fun (a b : SerperData) => b.organic ≠ [] → a.organic.length = 10)
      (d :: ds))
    (h10 : d.organic.length ≠ 10) : ∀ b ∈ ds, b.organic = [] := by
  rcases ds with _ | ⟨e, es⟩
  · simp
  · rcases List.chain'_cons.mp hchain with ⟨hde, htail⟩
    have he : e.organic = [] := by
      by_contra hc
      exact h10 (hde hc)
    intro b hb
    rcases List.mem_cons.mp hb with rfl | hb2
    · exact he
    · exact chain_full_nil_all es e htail he b hb2

/-- Search pagination yields one page per non-empty batch, provided every
non-empty batch that is followed by another non-empty batch is full (10
items) and the sequence ends in an empty batch. -/
theorem searchPaginateAux_length (q : Str) (datas : List SerperData) (page : Nat)
    (hchain : List.Chain' (fun (a b : SerperData) => b.organic ≠ [] → a.organic.length = 10)
      datas)
    (hlast : (datas.map (fun d => d.organic)).getLast? = some []) :
    (searchPaginateAux q (datas.map FetchOutcome.ok) page).length
      = (datas.filter (fun d => !d.organic.isEmpty)).length := by
  induction datas generalizing page with
  | nil => simp at hlast
  | cons d ds ih =>
    by_cases hd : d.organic = []
    · have hall : ∀ x ∈ ds, x.organic = [] := chain_full_nil_all ds d hchain hd
      have hfilter : ds.filter (fun x => !x.organic.isEmpty) = [] := by
        rw [List.filter_eq_nil_iff]
        intro a ha
        simp [hall a ha]
      rw [List.map_cons, searchPaginateAux_cons_nil q d _ page hd]
      simp [List.filter_cons, hd, hfilter]
    · by_cases h10 : d.organic.length = 10
      · rcases ds with _ | ⟨d2, ds2⟩
        · exfalso
          have : d.organic = [] := by simpa using hlast
          exact hd this
        · have hlast2 : ((d2 :: ds2).map (fun x => x.organic)).getLast? = some [] := by
            simpa [List.getLast?_cons_cons] using hlast
          have hchain2 := (List.chain'_cons.mp hchain).2
          rw [List.map_cons, searchPaginateAux_cons_full q d _ page h10, List.length_cons,
            ih (page + 1) hchain2 hlast2]
          simp [List.filter_cons, hd]
      · have hall : ∀ x ∈ ds, x.organic = [] := chain_full_after d ds hchain h10
        have hfilter : ds.filter (fun x => !x.organic.isEmpty) = [] := by
          rw [List.filter_eq_nil_iff]
          intro a ha
          simp [hall a ha]
        rw [List.map_cons, searchPaginateAux_cons_short q d _ page hd h10]
        simp [List.filter_cons, hd, hfilter]

/-- Claim C3 (amended): for batch sequences with monotonically non-increasing
sizes ending in an empty batch, the maps paginator yields exactly one page
per non-empty batch; the search paginator does so as well provided that
every non-empty batch followed by another non-empty batch is full (10
items) — without this extra condition the search paginator stops early
(`hasMorePages` is `items.length === 10`). -/
theorem paginate_length_eq_nonempty_batches :
    (∀ (q : Str) (batches : List (List PlaceItem)),
      List.Chain' (fun (a b : List PlaceItem) => b.length ≤ a.length) batches →
      batches.getLast? = some [] →
      (mapsPaginate q (batches.map MapsFetchOutcome.ok)).length
        = (batches.filter (fun l => !l.isEmpty)).length) ∧
    (∀ (q : Str) (datas : List SerperData),
      List.Chain' (fun (a b : SerperData) => b.organic.length ≤ a.organic.length) datas →
      List.Chain' (fun (a b : SerperData) => b.organic ≠ [] → a.organic.length = 10) datas →
      (datas.map (fun d => d.organic)).getLast? = some [] →
      (searchPaginate q (datas.map FetchOutcome.ok)).length
        = (datas.filter (fun d => !d.organic.isEmpty)).length) := by
  constructor
  · intro q batches hchain hlast
    exact mapsPaginateAux_length q batches 0 hchain hlast
  · intro q datas _hdec hchain hlast
    exact searchPaginateAux_length q datas 0 hchain hlast

/-- Witness for C3's amended theorem: a full page then an empty page for the
search provider, and a shrinking two-batch sequence for maps. -/
theorem paginate_length_eq_nonempty_batches_witness :
    (mapsPaginate (strOf ("q")) ([[emptyPlace], []].map MapsFetchOutcome.ok)).length = 1 ∧
    (searchPaginate (strOf ("q"))
        ([serperBatch 10, serperBatch 3, serperBatch 0].map FetchOutcome.ok)).length = 2 := by
  constructor
  · rw [paginate_length_eq_nonempty_batches.1 (strOf ("q")) _
      (by rw [List.chain'_pair]; simp) (by rfl)]
    decide
  · rw [paginate_length_eq_nonempty_batches.2 (strOf ("q")) _
      (List.chain'_cons.mpr ⟨by decide, List.chain'_cons.mpr ⟨by decide,
        List.chain'_singleton _⟩⟩)
      (List.chain'_cons.mpr ⟨by decide, List.chain'_cons.mpr ⟨by decide,
        List.chain'_singleton _⟩⟩)
      (by rfl)]
    decide

/-- Counterexample to claim C3 as stated: batch sizes 9, 8, 0 are
monotonically decreasing and end in an empty batch, yet the search paginator
yields only 1 page while 2 batches are non-empty (it stops after the first
page because 9 is not the full page size 10). -/
theorem searchPaginate_decreasing_gap :
    (searchPaginate (strOf ("q"))
        [FetchOutcome.ok (serperBatch 9), FetchOutcome.ok (serperBatch 8),
          FetchOutcome.ok (serperBatch 0)]).length = 1 ∧
    ([serperBatch 9, serperBatch 8, serperBatch 0].filter
        (fun d => !d.organic.isEmpty)).length = 2 ∧
    (serperBatch 9).organic.length = 9 ∧ (serperBatch 8).organic.length = 8 ∧
    (serperBatch 0).organic = [] ∧
    (9 : Nat) ≥ 8 ∧ (8 : Nat) ≥ 0 ∧ (1 : Nat) ≠ 2 := by
  decide

/-- Claim C7: when a page fetch fails during pagination (after the retry
budget, i.e. the `search` call throws), the search paginator yields exactly
one synthetic error page — whose single item carries the failure message —
and then ends, while the maps paginator ends immediately without yielding
anything; pages before the failure are yielded normally. -/
theorem paginate_failure_behavior :
    (∀ (q e : Str) (pre : List SerperData) (rest : List FetchOutcome) (page : Nat),
      (∀ d ∈ pre, d.organic.length = 10) →
      searchPaginateAux q (pre.map FetchOutcome.ok ++ FetchOutcome.fail e :: rest) page
        = searchOkPages q pre page ++ [searchCreateErrorResult q (page + pre.length) e]) ∧
    (∀ (q e : Str) (pre : List (List PlaceItem)) (rest : List MapsFetchOutcome) (page : Nat),
      (∀ b ∈ pre, b ≠ []) →
      mapsPaginateAux q (pre.map MapsFetchOutcome.ok ++ MapsFetchOutcome.fail e :: rest) page
        = mapsOkPages q pre page) ∧
    (∀ (q e : Str) (page : Nat),
      (searchCreateErrorResult q page e).items
        = [{ title := [], snippet := [], link := [], position := page * 10 + 1,
             query := q, page := page + 1, error := some e }] ∧
      (searchCreateErrorResult q page e).hasMorePages = false) := by
  refine ⟨?_, ?_, ?_⟩
  · intro q e pre
    induction pre with
    | nil =>
      intro rest page _
      simp [searchPaginateAux, searchOkPages]
    | cons d ds ih =>
      intro rest page hfull
      have hd : d.organic.length = 10 := hfull d (List.mem_cons_self _ _)
      have hds : ∀ x ∈ ds, x.organic.length = 10 :=
        fun x hx => hfull x (List.mem_cons_of_mem _ hx)
      rw [List.map_cons, List.cons_append, searchPaginateAux_cons_full q d _ page hd,
        ih rest (page + 1) hds]
      simp only [searchOkPages, List.cons_append, List.length_cons]
      have : page + 1 + ds.length = page + (ds.length + 1) := by omega
      rw [this]
  · intro q e pre
    induction pre with
    | nil =>
      intro rest page _
      simp [mapsPaginateAux, mapsOkPages]
    | cons b bs ih =>
      intro rest page hne
      have hb : b ≠ [] := hne b (List.mem_cons_self _ _)
      have hbs : ∀ x ∈ bs, x ≠ [] := fun x hx => hne x (List.mem_cons_of_mem _ hx)
      rw [List.map_cons, List.cons_append, mapsPaginateAux_cons_ne q b _ page hb,
        ih rest (page + 1) hbs]
      simp [mapsOkPages]
  · intro q e page
    exact ⟨rfl, rfl⟩

/-- Witness for C7 at concrete inputs: a first-page failure for both
provider styles. -/
theorem paginate_failure_behavior_witness :
    searchPaginateAux (strOf ("q")) [FetchOutcome.fail (strOf ("boom"))] 0
      = [searchCreateErrorResult (strOf ("q")) 0 (strOf ("boom"))] ∧
    mapsPaginateAux (strOf ("q")) [MapsFetchOutcome.fail (strOf ("boom"))] 0 = [] := by
  constructor
  · have := paginate_failure_behavior.1 (strOf ("q")) (strOf ("boom")) [] [] 0 (by simp)
    simpa [searchOkPages] using this
  · have := paginate_failure_behavior.2.1 (strOf ("q")) (strOf ("boom")) [] [] 0 (by simp)
    simpa [mapsOkPages] using this

/-- Case analysis of the shared 3-attempt retry loop: the result, attempt
count and delay sequence as a function of the three attempt outcomes. -/
theorem runRetries_cases {α : Type} (res : Nat → Except Str α) :
    (runRetries res 3 1000).attemptsMade ≤ 3 ∧
    (runRetries res 3 1000).delays
      = (List.range ((runRetries res 3 1000).attemptsMade - 1)).map
          (fun k => 1000 * (k + 1)) ∧
    (∀ v, res 1 = Except.ok v →
      (runRetries res 3 1000).result = Except.ok v ∧
      (runRetries res 3 1000).attemptsMade = 1) ∧
    (∀ e1 e2 e3, res 1 = Except.error e1 → res 2 = Except.error e2 →
      res 3 = Except.error e3 →
      (runRetries res 3 1000).result = Except.error e3 ∧
      (runRetries res 3 1000).attemptsMade = 3) := by
  rcases h1 : res 1 with e1 | v1
  · rcases h2 : res 2 with e2 | v2
    · rcases h3 : res 3 with e3 | v3
      · refine ⟨?_, ?_, ?_, ?_⟩ <;>
          simp [runRetries, retryAux, h1, h2, h3, List.range_succ]
      · refine ⟨?_, ?_, ?_, ?_⟩ <;>
          simp [runRetries, retryAux, h1, h2, h3, List.range_succ]
    · refine ⟨?_, ?_, ?_, ?_⟩ <;>
        simp [runRetries, retryAux, h1, h2, List.range_succ]
  · refine ⟨?_, ?_, ?_, ?_⟩ <;>
      simp [runRetries, retryAux, h1, List.range_succ]

/-- A provider call preserves the attempt count and delay trace of the retry
loop and only wraps the final error. -/
theorem serperSearchCall_trace (q : Str) (page : Nat)
    (res : Nat → Except Str SerperData) :
    (serperSearchCall q page res).attemptsMade = (runRetries res 3 1000).attemptsMade ∧
    (serperSearchCall q page res).delays = (runRetries res 3 1000).delays := by
  unfold serperSearchCall
  rcases h : (runRetries res 3 1000).result with e | v <;> simp [h]

/-- Maps analog of `serperSearchCall_trace`. -/
theorem serperMapsCall_trace (q : Str) (page : Nat)
    (res : Nat → Except Str (List PlaceItem)) :
    (serperMapsCall q page res).attemptsMade = (runRetries res 3 1000).attemptsMade ∧
    (serperMapsCall q page res).delays = (runRetries res 3 1000).delays := by
  unfold serperMapsCall
  rcases h : (runRetries res 3 1000).result with e | v <;> simp [h]

/-- Claim C8: each provider `search` call makes at most 3 attempts; the
delay awaited after failed attempt `k < 3` is `k * 1000` ms (linear backoff,
captured by the delay sequence `[1000*1, ..., 1000*(attempts-1)]`); a
first-attempt success returns immediately; and when all 3 attempts fail the
call fails with the wrapped message carrying the last underlying error's
message.  This holds for the search provider and the maps provider alike. -/
theorem provider_retry_policy (q : Str) (page : Nat) :
    (∀ res : Nat → Except Str SerperData,
      (serperSearchCall q page res).attemptsMade ≤ 3 ∧
      (serperSearchCall q page res).delays
        = (List.range ((serperSearchCall q page res).attemptsMade - 1)).map
            (fun k => 1000 * (k + 1)) ∧
      (∀ v, res 1 = Except.ok v →
        (serperSearchCall q page res).result = Except.ok v ∧
        (serperSearchCall q page res).attemptsMade = 1) ∧
      (∀ e1 e2 e3, res 1 = Except.error e1 → res 2 = Except.error e2 →
        res 3 = Except.error e3 →
        (serperSearchCall q page res).result
          = Except.error (searchFailMsg q page e3))) ∧
    (∀ res : Nat → Except Str (List PlaceItem),
      (serperMapsCall q page res).attemptsMade ≤ 3 ∧
      (serperMapsCall q page res).delays
        = (List.range ((serperMapsCall q page res).attemptsMade - 1)).map
            (fun k => 1000 * (k + 1)) ∧
      (∀ v, res 1 = Except.ok v →
        (serperMapsCall q page res).result = Except.ok v ∧
        (serperMapsCall q page res).attemptsMade = 1) ∧
      (∀ e1 e2 e3, res 1 = Except.error e1 → res 2 = Except.error e2 →
        res 3 = Except.error e3 →
        (serperMapsCall q page res).result
          = Except.error (mapsFailMsg q page e3))) := by
  constructor
  · intro res
    rcases serperSearchCall_trace q page res with ⟨ha, hd⟩
    rcases runRetries_cases res with ⟨h1, h2, h3, h4⟩
    refine ⟨ha ▸ h1, ?_, ?_, ?_⟩
    · rw [ha, hd, h2]
    · intro v hv
      rcases h3 v hv with ⟨hr, hn⟩
      constructor
      · simp [serperSearchCall, hr]
      · rw [ha, hn]
    · intro e1 e2 e3 he1 he2 he3
      rcases h4 e1 e2 e3 he1 he2 he3 with ⟨hr, _⟩
      simp [serperSearchCall, hr]
  · intro res
    rcases serperMapsCall_trace q page res with ⟨ha, hd⟩
    rcases runRetries_cases res with ⟨h1, h2, h3, h4⟩
    refine ⟨ha ▸ h1, ?_, ?_, ?_⟩
    · rw [ha, hd, h2]
    · intro v hv
      rcases h3 v hv with ⟨hr, hn⟩
      constructor
      · simp [serperMapsCall, hr]
      · rw [ha, hn]
    · intro e1 e2 e3 he1 he2 he3
      rcases h4 e1 e2 e3 he1 he2 he3 with ⟨hr, _⟩
      simp [serperMapsCall, hr]

/-- Witness for C8: with every attempt failing, both providers report the
wrapped message after exactly the two linear-backoff delays. -/
theorem provider_retry_policy_witness :
    (serperSearchCall (strOf ("q")) 0 (fun _ => Except.error (strOf ("boom")))).result
      = Except.error (searchFailMsg (strOf ("q")) 0 (strOf ("boom"))) ∧
    (serperMapsCall (strOf ("q")) 0 (fun _ => Except.error (strOf ("boom")))).result
      = Except.error (mapsFailMsg (strOf ("q")) 0 (strOf ("boom"))) :=
  ⟨((provider_retry_policy (strOf ("q")) 0).1
      (fun _ => Except.error (strOf ("boom")))).2.2.2
      (strOf ("boom")) (strOf ("boom")) (strOf ("boom")) rfl rfl rfl,
   ((provider_retry_policy (strOf ("q")) 0).2
      (fun _ => Except.error (strOf ("boom")))).2.2.2
      (strOf ("boom")) (strOf ("boom")) (strOf ("boom")) rfl rfl rfl⟩

/-- Characters with equal code points are equal. -/
theorem charToNat_inj {c d : Char} (h : c.toNat = d.toNat) : c = d :=
  Char.eq_of_val_eq (UInt32.ext h)

/-- `Char.ofNat` round-trips on small code points. -/
theorem ofNat_toNat_small {n : Nat} (h : n ≤ 122) : (Char.ofNat n).toNat = n := by
  unfold Char.ofNat
  rw [dif_pos (by left; omega)]
  rfl

/-- Code point of the ASCII lowercasing. -/
theorem toLower_toNat (c : Char) :
    (Char.toLower c).toNat
      = if 65 ≤ c.toNat ∧ c.toNat ≤ 90 then c.toNat + 32 else c.toNat := by
  unfold Char.toLower
  by_cases h : 65 ≤ c.toNat ∧ c.toNat ≤ 90
  · rw [if_pos h, if_pos ⟨h.1, h.2⟩, ofNat_toNat_small (by omega)]
  · rw [if_neg h, if_neg (by exact fun hc => h ⟨hc.1, hc.2⟩)]

/-- ASCII lowercasing is idempotent. -/
theorem toLower_idem (c : Char) : Char.toLower (Char.toLower c) = Char.toLower c := by
  apply charToNat_inj
  rw [toLower_toNat, toLower_toNat]
  split_ifs <;> omega

/-- Character `==` in terms of code points. -/
theorem charBeq_iff (c t : Char) : (c == t) = true ↔ c.toNat = t.toNat := by
  rw [beq_iff_eq]
  exact ⟨congrArg Char.toNat, charToNat_inj⟩

/-- `badHostChar` in terms of code points. -/
theorem badHostChar_iff (c : Char) : badHostChar c = true ↔
    (c.toNat = 32 ∨ c.toNat = 35 ∨ c.toNat = 37 ∨ c.toNat = 47 ∨ c.toNat = 58 ∨
     c.toNat = 60 ∨ c.toNat = 62 ∨ c.toNat = 63 ∨ c.toNat = 64 ∨ c.toNat = 91 ∨
     c.toNat = 93 ∨ c.toNat = 94 ∨ c.toNat = 124) := by
  unfold badHostChar
  simp only [Bool.or_eq_true, charBeq_iff,
    show (' ').toNat = 32 from rfl, show ('#').toNat = 35 from rfl,
    show ('%').toNat = 37 from rfl, show ('/').toNat = 47 from rfl,
    show (':').toNat = 58 from rfl, show ('<').toNat = 60 from rfl,
    show ('>').toNat = 62 from rfl, show ('?').toNat = 63 from rfl,
    show ('@').toNat = 64 from rfl, show ('[').toNat = 91 from rfl,
    show (']').toNat = 93 from rfl, show ('^').toNat = 94 from rfl,
    show ('|').toNat = 124 from rfl]
  tauto

/-- `authDelim` in terms of code points. -/
theorem authDelim_iff (c : Char) : authDelim c = true ↔
    (c.toNat = 47 ∨ c.toNat = 63 ∨ c.toNat = 35) := by
  unfold authDelim
  simp only [Bool.or_eq_true, charBeq_iff,
    show ('/').toNat = 47 from rfl, show ('?').toNat = 63 from rfl,
    show ('#').toNat = 35 from rfl]
  tauto

/-- `asciiAlpha` in terms of code points. -/
theorem asciiAlpha_iff (c : Char) : asciiAlpha c = true ↔
    ((65 ≤ c.toNat ∧ c.toNat ≤ 90) ∨ (97 ≤ c.toNat ∧ c.toNat ≤ 122)) := by
  simp [asciiAlpha]

/-- `digitChar` in terms of code points. -/
theorem digitChar_iff (c : Char) : digitChar c = true ↔
    (48 ≤ c.toNat ∧ c.toNat ≤ 57) := by
  simp [digitChar]

/-- `schemeChar` in terms of code points. -/
theorem schemeChar_iff (c : Char) : schemeChar c = true ↔
    ((65 ≤ c.toNat ∧ c.toNat ≤ 90) ∨ (97 ≤ c.toNat ∧ c.toNat ≤ 122) ∨
     (48 ≤ c.toNat ∧ c.toNat ≤ 57) ∨ c.toNat = 43 ∨ c.toNat = 45 ∨ c.toNat = 46) := by
  unfold schemeChar
  simp only [Bool.or_eq_true, charBeq_iff, asciiAlpha_iff, digitChar_iff,
    show ('+').toNat = 43 from rfl, show ('-').toNat = 45 from rfl,
    show ('.').toNat = 46 from rfl]
  tauto

/-- Lowercasing does not change whether a character is a forbidden host
character. -/
theorem badHostChar_toLower (c : Char) :
    badHostChar (Char.toLower c) = badHostChar c := by
  rw [Bool.eq_iff_iff, badHostChar_iff, badHostChar_iff, toLower_toNat]
  by_cases hu : 65 ≤ c.toNat ∧ c.toNat ≤ 90
  · rw [if_pos hu]
    omega
  · rw [if_neg hu]

/-- Lowercasing does not change whether a character is an authority
delimiter. -/
theorem authDelim_toLower (c : Char) : authDelim (Char.toLower c) = authDelim c := by
  rw [Bool.eq_iff_iff, authDelim_iff, authDelim_iff, toLower_toNat]
  by_cases hu : 65 ≤ c.toNat ∧ c.toNat ≤ 90
  · rw [if_pos hu]
    omega
  · rw [if_neg hu]

/-- Lowercasing does not change whether a character is a digit. -/
theorem digitChar_toLower (c : Char) : digitChar (Char.toLower c) = digitChar c := by
  rw [Bool.eq_iff_iff, digitChar_iff, digitChar_iff, toLower_toNat]
  by_cases hu : 65 ≤ c.toNat ∧ c.toNat ≤ 90
  · rw [if_pos hu]
    omega
  · rw [if_neg hu]

/-- Lowercasing does not change whether a character is a letter. -/
theorem asciiAlpha_toLower (c : Char) : asciiAlpha (Char.toLower c) = asciiAlpha c := by
  rw [Bool.eq_iff_iff, asciiAlpha_iff, asciiAlpha_iff, toLower_toNat]
  by_cases hu : 65 ≤ c.toNat ∧ c.toNat ≤ 90
  · rw [if_pos hu]
    omega
  · rw [if_neg hu]

/-- Lowercasing does not change whether a character is a scheme character. -/
theorem schemeChar_toLower (c : Char) : schemeChar (Char.toLower c) = schemeChar c := by
  rw [Bool.eq_iff_iff, schemeChar_iff, schemeChar_iff, toLower_toNat]
  by_cases hu : 65 ≤ c.toNat ∧ c.toNat ≤ 90
  · rw [if_pos hu]
    omega
  · rw [if_neg hu]

/-- Comparison with a non-letter character is unaffected by lowercasing. -/
theorem toLower_beq_symbol (c t : Char)
    (h1 : t.toNat < 65 ∨ (90 < t.toNat ∧ t.toNat < 97) ∨ 122 < t.toNat) :
    (Char.toLower c == t) = (c == t) := by
  rw [Bool.eq_iff_iff, charBeq_iff, charBeq_iff, toLower_toNat]
  by_cases hu : 65 ≤ c.toNat ∧ c.toNat ≤ 90
  · rw [if_pos hu]
    omega
  · rw [if_neg hu]

/-- Equality with a non-letter character is unaffected by lowercasing. -/
theorem toLower_eq_symbol (c t : Char)
    (h1 : t.toNat < 65 ∨ (90 < t.toNat ∧ t.toNat < 97) ∨ 122 < t.toNat) :
    Char.toLower c = t ↔ c = t := by
  rw [← beq_iff_eq (a := Char.toLower c), ← beq_iff_eq (a := c), toLower_beq_symbol c t h1]

/-- Lowercasing maps to `w` exactly the two cases `w` and `W`. -/
theorem toLower_eq_w_iff (c : Char) :
    Char.toLower c = 'w' ↔ (c.toNat = 119 ∨ c.toNat = 87) := by
  constructor
  · intro h
    have h2 := congrArg Char.toNat h
    rw [toLower_toNat] at h2
    have hw : ('w').toNat = 119 := rfl
    rw [hw] at h2
    by_cases hu : 65 ≤ c.toNat ∧ c.toNat ≤ 90
    · rw [if_pos hu] at h2
      omega
    · rw [if_neg hu] at h2
      omega
  · rintro (h | h)
    · rw [charToNat_inj (d := 'w') h]
      rfl
    · rw [charToNat_inj (d := 'W') h]
      rfl

/-- String lowercasing is idempotent. -/
theorem lowerStr_idem (s : Str) : lowerStr (lowerStr s) = lowerStr s := by
  simp only [lowerStr, List.map_map]
  exact List.map_congr_left (fun a _ => toLower_idem a)

/-- `takeWhile` with a lowercase-invariant predicate commutes with
lowercasing. -/
theorem takeWhile_lowerStr (p : Char → Bool) (s : Str)
    (hp : ∀ c, p (Char.toLower c) = p c) :
    (lowerStr s).takeWhile p = lowerStr (s.takeWhile p) := by
  unfold lowerStr
  rw [List.takeWhile_map]
  have : (p ∘ Char.toLower) = p := funext hp
  rw [this]

/-- `List.all` with a lowercase-invariant predicate is unaffected by
lowercasing. -/
theorem all_lowerStr (p : Char → Bool) (s : Str) (hp : ∀ c, p (Char.toLower c) = p c) :
    (lowerStr s).all p = s.all p := by
  unfold lowerStr
  rw [List.all_map]
  have : (p ∘ Char.toLower) = p := funext hp
  rw [this]

/-- Userinfo stripping commutes with lowercasing. -/
theorem afterLastAt_lowerStr (s : Str) : afterLastAt (lowerStr s) = lowerStr (afterLastAt s) := by
  unfold afterLastAt
  have hrev : (lowerStr s).reverse = lowerStr s.reverse := by
    simp [lowerStr]
  rw [hrev, takeWhile_lowerStr _ _ (fun c => by
    show (Char.toLower c != '@') = (c != '@')
    simp only [bne]
    rw [toLower_beq_symbol c '@' (by decide)])]
  simp [lowerStr]

/-- `splitAtFirst` at a non-letter character commutes with lowercasing. -/
theorem splitAtFirst_lowerStr (t : Char) (s : Str)
    (ht : ∀ c : Char, (Char.toLower c == t) = (c == t)) :
    splitAtFirst t (lowerStr s)
      = (splitAtFirst t s).map (fun pr => (lowerStr pr.1, lowerStr pr.2)) := by
  induction s with
  | nil => rfl
  | cons c cs ih =>
    simp only [lowerStr, List.map_cons, splitAtFirst]
    rw [show (List.map Char.toLower cs) = lowerStr cs from rfl, ht c]
    by_cases hc : (c == t) = true
    · rw [if_pos hc, if_pos hc]
      simp [lowerStr]
    · rw [if_neg hc, if_neg hc, ih]
      rcases h : splitAtFirst t cs with _ | ⟨a, b⟩ <;> simp [lowerStr]

/-- Scheme validation is unaffected by lowercasing. -/
theorem validScheme_lowerStr (s : Str) : validScheme (lowerStr s) = validScheme s := by
  cases s with
  | nil => rfl
  | cons c cs =>
    show validScheme (Char.toLower c :: lowerStr cs) = validScheme (c :: cs)
    simp only [validScheme, asciiAlpha_toLower]
    rw [all_lowerStr schemeChar cs schemeChar_toLower]

/-- Authority parsing commutes with lowercasing: a lowercased authority
yields the lowercased host, and fails exactly when the original fails. -/
theorem parseAuthority_lowerStr (r : Str) :
    parseAuthority (lowerStr r) = (parseAuthority r).map lowerStr := by
  unfold parseAuthority
  dsimp only
  rw [takeWhile_lowerStr _ _ (fun c => by
      show (!authDelim (Char.toLower c)) = !authDelim c
      rw [authDelim_toLower]),
    afterLastAt_lowerStr,
    splitAtFirst_lowerStr ':' _ (fun c => toLower_beq_symbol c ':' (by decide))]
  rcases h : splitAtFirst ':' (afterLastAt (r.takeWhile (fun c => !authDelim c))) with
    _ | ⟨hst, prt⟩
  · simp only [Option.map_none]
    rcases hA : afterLastAt (r.takeWhile (fun c => !authDelim c)) with _ | ⟨c0, cs0⟩
    · rfl
    · show (match (Char.toLower c0 :: lowerStr cs0, ([] : Str)) with
        | ([], _) => none
        | (host, port) =>
          if host.all (fun c => !badHostChar c) && port.all digitChar then some host
          else none)
        = Option.map lowerStr (match (c0 :: cs0, ([] : Str)) with
        | ([], _) => none
        | (host, port) =>
          if host.all (fun c => !badHostChar c) && port.all digitChar then some host
          else none)
      simp only []
      rw [show ((Char.toLower c0 :: lowerStr cs0).all fun c => !badHostChar c)
          = ((c0 :: cs0).all fun c => !badHostChar c) from by
        show ((lowerStr (c0 :: cs0)).all fun c => !badHostChar c)
          = ((c0 :: cs0).all fun c => !badHostChar c)
        exact all_lowerStr _ _ (fun c => by rw [badHostChar_toLower])]
      by_cases hcond : (((c0 :: cs0).all fun c => !badHostChar c) && [].all digitChar) = true
      · rw [if_pos hcond, if_pos hcond]
        rfl
      · rw [if_neg hcond, if_neg hcond]
        rfl
  · simp only [Option.map_some]
    rcases hst with _ | ⟨c0, cs0⟩
    · rfl
    · show (match (Char.toLower c0 :: lowerStr cs0, lowerStr prt) with
        | ([], _) => none
        | (host, port) =>
          if host.all (fun c => !badHostChar c) && port.all digitChar then some host
          else none)
        = Option.map lowerStr (match (c0 :: cs0, prt) with
        | ([], _) => none
        | (host, port) =>
          if host.all (fun c => !badHostChar c) && port.all digitChar then some host
          else none)
      simp only []
      rw [show ((Char.toLower c0 :: lowerStr cs0).all fun c => !badHostChar c)
          = ((c0 :: cs0).all fun c => !badHostChar c) from by
        show ((lowerStr (c0 :: cs0)).all fun c => !badHostChar c)
          = ((c0 :: cs0).all fun c => !badHostChar c)
        exact all_lowerStr _ _ (fun c => by rw [badHostChar_toLower]),
        all_lowerStr digitChar prt (fun c => by rw [digitChar_toLower])]
      by_cases hcond : (((c0 :: cs0).all fun c => !badHostChar c) && prt.all digitChar) = true
      · rw [if_pos hcond, if_pos hcond]
        rfl
      · rw [if_neg hcond, if_neg hcond]
        rfl


/-- Comparison of a fixed non-letter character against a lowercased one. -/
theorem symbol_beq_toLower (t c : Char)
    (h1 : t.toNat < 65 ∨ (90 < t.toNat ∧ t.toNat < 97) ∨ 122 < t.toNat) :
    (t == Char.toLower c) = (t == c) := by
  rw [Bool.eq_iff_iff, charBeq_iff, charBeq_iff, toLower_toNat]
  by_cases hu : 65 ≤ c.toNat ∧ c.toNat ≤ 90
  · rw [if_pos hu]
    omega
  · rw [if_neg hu]

/-- `leadsWith` for an all-symbol pattern is unaffected by lowercasing. -/
theorem leadsWith_lowerStr_symbols (pat s : Str)
    (hp : ∀ t ∈ pat, ∀ c : Char, (t == Char.toLower c) = (t == c)) :
    leadsWith pat (lowerStr s) = leadsWith pat s := by
  induction pat generalizing s with
  | nil => rfl
  | cons p ps ih =>
    cases s with
    | nil => rfl
    | cons c cs =>
      show (p == Char.toLower c && leadsWith ps (lowerStr cs)) = (p == c && leadsWith ps cs)
      rw [hp p (List.mem_cons_self _ _) c,
        ih cs (fun t ht c2 => hp t (List.mem_cons_of_mem _ ht) c2)]

/-- `hasSub` with an all-symbol pattern is unaffected by lowercasing. -/
theorem hasSub_lowerStr_symbols (s pat : Str)
    (hp : ∀ t ∈ pat, ∀ c : Char, (t == Char.toLower c) = (t == c)) :
    hasSub (lowerStr s) pat = hasSub s pat := by
  induction s with
  | nil => rfl
  | cons c cs ih =>
    show hasSub (Char.toLower c :: lowerStr cs) pat = hasSub (c :: cs) pat
    unfold hasSub
    rw [show (Char.toLower c :: lowerStr cs) = lowerStr (c :: cs) from rfl,
      leadsWith_lowerStr_symbols pat _ hp]
    cases cs with
    | nil => rfl
    | cons c2 cs2 =>
      rw [show hasSub (lowerStr (c2 :: cs2)) pat = hasSub (c2 :: cs2) pat from ih]

/-- The symbol condition for the pattern `://`. -/
theorem css_symbols :
    ∀ t ∈ strOf ("://"), ∀ c : Char, (t == Char.toLower c) = (t == c) := by
  intro t ht c
  have : t = ':' ∨ t = '/' := by
    rcases List.mem_cons.mp ht with rfl | ht2
    · exact Or.inl rfl
    · rcases List.mem_cons.mp ht2 with rfl | ht3
      · exact Or.inr rfl
      · rcases List.mem_cons.mp ht3 with rfl | ht4
        · exact Or.inr rfl
        · simp [strOf] at ht4
  rcases this with rfl | rfl
  · exact symbol_beq_toLower ':' c (by decide)
  · exact symbol_beq_toLower '/' c (by decide)

/-- The symbol condition for the pattern `//`. -/
theorem slashslash_symbols :
    ∀ t ∈ strOf ("//"), ∀ c : Char, (t == Char.toLower c) = (t == c) := by
  intro t ht c
  have : t = '/' := by
    rcases List.mem_cons.mp ht with rfl | ht2
    · rfl
    · rcases List.mem_cons.mp ht2 with rfl | ht3
      · rfl
      · simp [strOf] at ht3
  subst this
  exact symbol_beq_toLower '/' c (by decide)

/-- URL hostname extraction commutes with lowercasing. -/
theorem urlHostname_lowerStr (s : Str) :
    urlHostname (lowerStr s) = (urlHostname s).map lowerStr := by
  unfold urlHostname
  rw [splitAtFirst_lowerStr ':' s (fun c => toLower_beq_symbol c ':' (by decide))]
  rcases h : splitAtFirst ':' s with _ | ⟨scheme, rest⟩
  · rfl
  · simp only [Option.map_some]
    show (if validScheme (lowerStr scheme) then
        if leadsWith (strOf ("//")) (lowerStr rest) then
          parseAuthority ((lowerStr rest).drop 2)
        else some []
      else none)
      = Option.map lowerStr (if validScheme scheme then
        if leadsWith (strOf ("//")) rest then parseAuthority (rest.drop 2)
        else some []
      else none)
    rw [validScheme_lowerStr, leadsWith_lowerStr_symbols _ _ slashslash_symbols]
    by_cases hv : validScheme scheme = true
    · rw [if_pos hv, if_pos hv]
      by_cases hl : leadsWith (strOf ("//")) rest = true
      · rw [if_pos hl, if_pos hl]
        rw [show (lowerStr rest).drop 2 = lowerStr (rest.drop 2) from
          (List.map_drop Char.toLower rest 2).symm]
        exact parseAuthority_lowerStr (rest.drop 2)
      · rw [if_neg hl, if_neg hl]
        rfl
    · rw [if_neg hv, if_neg hv]
      rfl

/-- `takeWhile` keeps a list whose elements all satisfy the predicate. -/
theorem takeWhile_all {p : Char → Bool} (s : Str) (h : ∀ c ∈ s, p c = true) :
    s.takeWhile p = s :=
  List.takeWhile_eq_self_iff.mpr h

/-- `takeWhile` passes over a fully-satisfying left part. -/
theorem takeWhile_append_all {p : Char → Bool} (a b : Str) (ha : ∀ c ∈ a, p c = true) :
    (a ++ b).takeWhile p = a ++ b.takeWhile p := by
  induction a with
  | nil => rfl
  | cons x xs ih =>
    simp only [List.cons_append, List.takeWhile_cons, ha x (List.mem_cons_self _ _), if_true]
    rw [ih (fun c hc => ha c (List.mem_cons_of_mem _ hc))]

/-- `takeWhile` never reaches past a failing element of the left part. -/
theorem takeWhile_append_stop {p : Char → Bool} (a b : Str) (c : Char)
    (hc : c ∈ a) (hpc : p c = false) : (a ++ b).takeWhile p = a.takeWhile p := by
  induction a with
  | nil => simp at hc
  | cons x xs ih =>
    rcases hx : p x with _ | _
    · simp [List.takeWhile_cons, hx]
    · rcases List.mem_cons.mp hc with rfl | hc2
      · rw [hx] at hpc
        simp at hpc
      · simp only [List.cons_append, List.takeWhile_cons, hx, if_true]
        rw [ih hc2]

/-- Userinfo stripping is the identity when `@` is absent. -/
theorem afterLastAt_no_at (s : Str) (h : '@' ∉ s) : afterLastAt s = s := by
  unfold afterLastAt
  rw [takeWhile_all s.reverse (fun c hc => by
    have : c ≠ '@' := fun hceq => h (hceq ▸ List.mem_reverse.mp hc)
    simpa using this)]
  exact List.reverse_reverse s

/-- Userinfo stripping ignores everything before a part containing `@`. -/
theorem afterLastAt_append_mem (a b : Str) (h : '@' ∈ b) :
    afterLastAt (a ++ b) = afterLastAt b := by
  unfold afterLastAt
  rw [List.reverse_append,
    takeWhile_append_stop b.reverse a.reverse '@' (List.mem_reverse.mpr h) (by simp)]

/-- Lowercasing does not change whether a string starts with `www.`. -/
theorem startsWWW_lowerStr (s : Str) : startsWWW (lowerStr s) = startsWWW s := by
  unfold startsWWW
  rw [show (lowerStr s).take 4 = lowerStr (s.take 4) from (List.map_take Char.toLower s 4).symm,
    lowerStr_idem]

/-- Stripping a leading `www.` commutes with lowercasing. -/
theorem stripWWW_lowerStr (s : Str) : stripWWW (lowerStr s) = lowerStr (stripWWW s) := by
  unfold stripWWW
  rw [startsWWW_lowerStr]
  by_cases h : startsWWW s = true
  · rw [if_pos h, if_pos h]
    exact (List.map_drop Char.toLower s 4).symm
  · rw [if_neg h, if_neg h]

/-- The output of `normalizeDomain` is already lowercase. -/
theorem normalizeDomain_lowerStr (x : Str) :
    lowerStr (normalizeDomain x) = normalizeDomain x := by
  unfold normalizeDomain
  by_cases hx : x.isEmpty = true
  · rw [if_pos hx]
    rfl
  · rw [if_neg hx]
    rcases h : (if hasSub x (strOf ("://")) then urlHostname x
      else urlHostname (strOf ("https://") ++ x)) with _ | hh
    · exact lowerStr_idem (stripWWW x)
    · exact lowerStr_idem (stripWWW hh)

/-- Unfolding of `normalizeDomain` on a non-empty input. -/
theorem normalizeDomain_eq (x : Str) (hne : x ≠ []) :
    normalizeDomain x
      = (match (if hasSub x (strOf ("://")) then urlHostname x
          else urlHostname (strOf ("https://") ++ x)) with
        | some h => lowerStr (stripWWW h)
        | none => lowerStr (stripWWW x)) := by
  unfold normalizeDomain
  rw [if_neg (by simpa [List.isEmpty_iff] using hne)]

/-- `urlHostname` after prefixing `https://` is authority parsing. -/
theorem urlHostname_https (r : Str) :
    urlHostname (strOf ("https://") ++ r) = parseAuthority r := rfl

/-- Decomposition of a string starting with `www.` case-insensitively. -/
theorem startsWWW_decomp (x : Str) (h : startsWWW x = true) :
    ∃ a b c d, x = a :: b :: c :: d :: x.drop 4 ∧
      (a.toNat = 119 ∨ a.toNat = 87) ∧ (b.toNat = 119 ∨ b.toNat = 87) ∧
      (c.toNat = 119 ∨ c.toNat = 87) ∧ d.toNat = 46 := by
  unfold startsWWW at h
  rw [beq_iff_eq] at h
  have hlen : (x.take 4).length = 4 := by
    have := congrArg List.length h
    simp only [lowerStr, List.length_map] at this
    rw [this]
    rfl
  rcases x with _ | ⟨a, _ | ⟨b, _ | ⟨c, _ | ⟨d, rest⟩⟩⟩⟩
  · simp at hlen
  · simp at hlen
  · simp at hlen
  · simp at hlen
  · have h3 : [Char.toLower a, Char.toLower b, Char.toLower c, Char.toLower d]
        = ['w', 'w', 'w', '.'] := h
    injection h3 with ha h3
    injection h3 with hb h3
    injection h3 with hc h3
    injection h3 with hd h3
    refine ⟨a, b, c, d, rfl, ?_, ?_, ?_, ?_⟩
    · exact (toLower_eq_w_iff a).mp ha
    · exact (toLower_eq_w_iff b).mp hb
    · exact (toLower_eq_w_iff c).mp hc
    · have := (toLower_eq_symbol d '.' (by decide)).mp hd
      exact congrArg Char.toNat this

/-- Character facts for the letters of a (case-insensitive) `www.` run. -/
theorem wwwChar_facts (c : Char) (h : c.toNat = 119 ∨ c.toNat = 87 ∨ c.toNat = 46) :
    (!authDelim c) = true ∧ (!badHostChar c) = true ∧ schemeChar c = true ∧
    c ≠ ':' ∧ c ≠ '@' := by
  refine ⟨?_, ?_, ?_, ?_, ?_⟩
  · rcases hv : authDelim c with _ | _
    · rfl
    · rw [authDelim_iff] at hv
      omega
  · rcases hv : badHostChar c with _ | _
    · rfl
    · rw [badHostChar_iff] at hv
      omega
  · rw [schemeChar_iff]
    omega
  · intro hc
    subst hc
    revert h
    decide
  · intro hc
    subst hc
    revert h
    decide

/-- A valid scheme consists of scheme characters. -/
theorem validScheme_all (s : Str) (h : validScheme s = true) : s.all schemeChar = true := by
  cases s with
  | nil => exact absurd h (by simp [validScheme])
  | cons c cs =>
    unfold validScheme at h
    rw [Bool.and_eq_true] at h
    rcases h with ⟨h1, h2⟩
    rw [List.all_cons, h2, Bool.and_true]
    rw [schemeChar_iff]
    rw [asciiAlpha_iff] at h1
    omega

/-- Prefixing a `www.` run preserves scheme validity. -/
theorem validScheme_www (a b c d : Char) (s2 : Str)
    (ha : a.toNat = 119 ∨ a.toNat = 87) (hb : b.toNat = 119 ∨ b.toNat = 87)
    (hc : c.toNat = 119 ∨ c.toNat = 87) (hd : d.toNat = 46)
    (hs : s2.all schemeChar = true) :
    validScheme (a :: b :: c :: d :: s2) = true := by
  unfold validScheme
  rw [Bool.and_eq_true, asciiAlpha_iff]
  constructor
  · omega
  · rw [List.all_cons, List.all_cons, List.all_cons, hs]
    rw [Bool.and_true, Bool.and_eq_true, Bool.and_eq_true, schemeChar_iff, schemeChar_iff,
      schemeChar_iff]
    refine ⟨by omega, by omega, by omega⟩

/-- Inversion of a successful authority parse: the host is non-empty and
contains no forbidden characters. -/
theorem parseAuthority_some_good (r h : Str) (he : parseAuthority r = some h) :
    h ≠ [] ∧ h.all (fun c => !badHostChar c) = true := by
  unfold parseAuthority at he
  dsimp only at he
  rcases hsp : splitAtFirst ':' (afterLastAt (r.takeWhile (fun c => !authDelim c))) with
    _ | ⟨hst, prt⟩ <;> rw [hsp] at he <;> dsimp only at he
  · rcases hA : afterLastAt (r.takeWhile (fun c => !authDelim c)) with _ | ⟨c0, cs0⟩ <;>
      rw [hA] at he <;> dsimp only at he
    · simp at he
    · split at he
      · rename_i hcond
        rw [Bool.and_eq_true] at hcond
        have heq := Option.some.inj he
        subst heq
        exact ⟨by simp, hcond.1⟩
      · simp at he
  · rcases hst with _ | ⟨c0, cs0⟩ <;> dsimp only at he
    · simp at he
    · split at he
      · rename_i hcond
        rw [Bool.and_eq_true] at hcond
        have heq := Option.some.inj he
        subst heq
        exact ⟨by simp, hcond.1⟩
      · simp at he

/-- A non-empty string of valid host characters parses back to itself. -/
theorem parseAuthority_good_roundtrip (y : Str) (hne : y ≠ [])
    (hg : y.all (fun c => !badHostChar c) = true) : parseAuthority y = some y := by
  have hmem : ∀ c ∈ y, badHostChar c = false := by
    intro c hc
    have := List.all_eq_true.mp hg c hc
    simpa using this
  have h1 : y.takeWhile (fun c => !authDelim c) = y := by
    apply takeWhile_all
    intro c hc
    rcases hv : authDelim c with _ | _
    · rfl
    · exfalso
      rw [authDelim_iff] at hv
      have hbad : badHostChar c = true := by
        rw [badHostChar_iff]
        omega
      rw [hmem c hc] at hbad
      simp at hbad
  have h2 : afterLastAt y = y := by
    apply afterLastAt_no_at
    intro hc
    have := hmem '@' hc
    rw [show badHostChar '@' = true from by decide] at this
    simp at this
  have h3 : splitAtFirst ':' y = none := by
    rw [splitAtFirst_eq_none_iff]
    intro hc
    have := hmem ':' hc
    rw [show badHostChar ':' = true from by decide] at this
    simp at this
  rcases y with _ | ⟨c0, cs0⟩
  · exact absurd rfl hne
  · unfold parseAuthority
    dsimp only
    rw [h1, h2, h3]
    dsimp only
    rw [if_pos (by rw [hg]; rfl)]

/-- A case-insensitive `www.` run contains no colon. -/
theorem w4_not_mem_colon (a b c d : Char)
    (ha : a.toNat = 119 ∨ a.toNat = 87) (hb : b.toNat = 119 ∨ b.toNat = 87)
    (hc : c.toNat = 119 ∨ c.toNat = 87) (hd : d.toNat = 46) :
    ':' ∉ ([a, b, c, d] : Str) := by
  intro hm
  rcases List.mem_cons.mp hm with h | hm
  · exact (wwwChar_facts a (by omega)).2.2.2.1 h.symm
  rcases List.mem_cons.mp hm with h | hm
  · exact (wwwChar_facts b (by omega)).2.2.2.1 h.symm
  rcases List.mem_cons.mp hm with h | hm
  · exact (wwwChar_facts c (by omega)).2.2.2.1 h.symm
  rcases List.mem_cons.mp hm with h | hm
  · exact (wwwChar_facts d (by omega)).2.2.2.1 h.symm
  · simp at hm

/-- A case-insensitive `www.` run contains no `@`. -/
theorem w4_not_mem_at (a b c d : Char)
    (ha : a.toNat = 119 ∨ a.toNat = 87) (hb : b.toNat = 119 ∨ b.toNat = 87)
    (hc : c.toNat = 119 ∨ c.toNat = 87) (hd : d.toNat = 46) :
    '@' ∉ ([a, b, c, d] : Str) := by
  intro hm
  rcases List.mem_cons.mp hm with h | hm
  · exact (wwwChar_facts a (by omega)).2.2.2.2 h.symm
  rcases List.mem_cons.mp hm with h | hm
  · exact (wwwChar_facts b (by omega)).2.2.2.2 h.symm
  rcases List.mem_cons.mp hm with h | hm
  · exact (wwwChar_facts c (by omega)).2.2.2.2 h.symm
  rcases List.mem_cons.mp hm with h | hm
  · exact (wwwChar_facts d (by omega)).2.2.2.2 h.symm
  · simp at hm

/-- A case-insensitive `www.` run consists of valid host characters. -/
theorem w4_all_good (a b c d : Char)
    (ha : a.toNat = 119 ∨ a.toNat = 87) (hb : b.toNat = 119 ∨ b.toNat = 87)
    (hc : c.toNat = 119 ∨ c.toNat = 87) (hd : d.toNat = 46) :
    ([a, b, c, d] : Str).all (fun ch => !badHostChar ch) = true := by
  simp only [List.all_cons, List.all_nil, Bool.and_true, Bool.and_eq_true]
  exact ⟨(wwwChar_facts a (by omega)).2.1, (wwwChar_facts b (by omega)).2.1,
    (wwwChar_facts c (by omega)).2.1, (wwwChar_facts d (by omega)).2.1⟩

/-- Failure of authority parsing survives removal of a leading
case-insensitive `www.` run. -/
theorem parseAuthority_www_fail (a b c d : Char) (x2 : Str)
    (ha : a.toNat = 119 ∨ a.toNat = 87) (hb : b.toNat = 119 ∨ b.toNat = 87)
    (hc : c.toNat = 119 ∨ c.toNat = 87) (hd : d.toNat = 46)
    (hfail : parseAuthority (a :: b :: c :: d :: x2) = none) :
    parseAuthority x2 = none := by
  have hauth : (a :: b :: c :: d :: x2).takeWhile (fun ch => !authDelim ch)
      = ([a, b, c, d] : Str) ++ x2.takeWhile (fun ch => !authDelim ch) := by
    show (([a, b, c, d] : Str) ++ x2).takeWhile (fun ch => !authDelim ch) = _
    apply takeWhile_append_all
    intro ch hch
    rcases List.mem_cons.mp hch with rfl | hm
    · exact (wwwChar_facts ch (by omega)).1
    rcases List.mem_cons.mp hm with rfl | hm
    · exact (wwwChar_facts ch (by omega)).1
    rcases List.mem_cons.mp hm with rfl | hm
    · exact (wwwChar_facts ch (by omega)).1
    rcases List.mem_cons.mp hm with rfl | hm
    · exact (wwwChar_facts ch (by omega)).1
    · simp at hm
  by_cases hat : '@' ∈ x2.takeWhile (fun ch => !authDelim ch)
  · have h1 : afterLastAt (([a, b, c, d] : Str) ++ x2.takeWhile (fun ch => !authDelim ch))
        = afterLastAt (x2.takeWhile (fun ch => !authDelim ch)) :=
      afterLastAt_append_mem _ _ hat
    unfold parseAuthority at hfail ⊢
    dsimp only at hfail ⊢
    rw [hauth, h1] at hfail
    exact hfail
  · have hnoat : '@' ∉ (([a, b, c, d] : Str) ++ x2.takeWhile (fun ch => !authDelim ch)) := by
      rw [List.mem_append]
      rintro (hm | hm)
      · exact w4_not_mem_at a b c d ha hb hc hd hm
      · exact hat hm
    have h1 : afterLastAt (([a, b, c, d] : Str) ++ x2.takeWhile (fun ch => !authDelim ch))
        = ([a, b, c, d] : Str) ++ x2.takeWhile (fun ch => !authDelim ch) :=
      afterLastAt_no_at _ hnoat
    have h2 : afterLastAt (x2.takeWhile (fun ch => !authDelim ch))
        = x2.takeWhile (fun ch => !authDelim ch) :=
      afterLastAt_no_at _ hat
    unfold parseAuthority at hfail ⊢
    dsimp only at hfail ⊢
    rw [hauth, h1] at hfail
    rw [h2]
    rcases hsp : splitAtFirst ':' (x2.takeWhile (fun ch => !authDelim ch)) with _ | ⟨a1, a2⟩
    · have hw4 : splitAtFirst ':'
          (([a, b, c, d] : Str) ++ x2.takeWhile (fun ch => !authDelim ch)) = none := by
        rw [splitAtFirst_eq_none_iff] at hsp ⊢
        rw [List.mem_append]
        rintro (hm | hm)
        · exact w4_not_mem_colon a b c d ha hb hc hd hm
        · exact hsp hm
      rw [hw4] at hfail
      have hfail2 : (if ((a :: b :: c :: d :: x2.takeWhile (fun ch => !authDelim ch)).all
            (fun ch => !badHostChar ch) && ([] : Str).all digitChar) = true
          then some (a :: b :: c :: d :: x2.takeWhile (fun ch => !authDelim ch))
          else none) = (none : Option Str) := hfail
      split at hfail2
      · simp at hfail2
      · rename_i hcond
        rw [List.all_cons, List.all_cons, List.all_cons, List.all_cons,
          (wwwChar_facts a (by omega)).2.1, (wwwChar_facts b (by omega)).2.1,
          (wwwChar_facts c (by omega)).2.1, (wwwChar_facts d (by omega)).2.1] at hcond
        simp only [Bool.true_and] at hcond
        rcases hA : x2.takeWhile (fun ch => !authDelim ch) with _ | ⟨c0, cs0⟩
        · rfl
        · rw [hA] at hcond
          show (if ((c0 :: cs0).all (fun ch => !badHostChar ch)
                && ([] : Str).all digitChar) = true
              then some (c0 :: cs0) else none) = (none : Option Str)
          rw [if_neg hcond]
    · have hw4 : splitAtFirst ':'
          (([a, b, c, d] : Str) ++ x2.takeWhile (fun ch => !authDelim ch))
          = some (([a, b, c, d] : Str) ++ a1, a2) := by
        rw [splitAtFirst_append_left ':' _ _ (w4_not_mem_colon a b c d ha hb hc hd), hsp]
        rfl
      rw [hw4] at hfail
      have hfail2 : (if ((a :: b :: c :: d :: a1).all (fun ch => !badHostChar ch)
            && a2.all digitChar) = true
          then some (a :: b :: c :: d :: a1) else none) = (none : Option Str) := hfail
      split at hfail2
      · simp at hfail2
      · rename_i hcond
        rw [List.all_cons, List.all_cons, List.all_cons, List.all_cons,
          (wwwChar_facts a (by omega)).2.1, (wwwChar_facts b (by omega)).2.1,
          (wwwChar_facts c (by omega)).2.1, (wwwChar_facts d (by omega)).2.1] at hcond
        simp only [Bool.true_and] at hcond
        rcases a1 with _ | ⟨c0, cs0⟩
        · rfl
        · show (if ((c0 :: cs0).all (fun ch => !badHostChar ch)
              && a2.all digitChar) = true
            then some (c0 :: cs0) else none) = (none : Option Str)
          rw [if_neg hcond]

/-- Failure of URL parsing survives removal of a leading case-insensitive
`www.` run. -/
theorem urlHostname_www_fail (a b c d : Char) (x2 : Str)
    (ha : a.toNat = 119 ∨ a.toNat = 87) (hb : b.toNat = 119 ∨ b.toNat = 87)
    (hc : c.toNat = 119 ∨ c.toNat = 87) (hd : d.toNat = 46)
    (hfail : urlHostname (a :: b :: c :: d :: x2) = none) :
    urlHostname x2 = none := by
  rcases hsp : splitAtFirst ':' x2 with _ | ⟨s2, r2⟩
  · unfold urlHostname
    rw [hsp]
  · have hw4 : splitAtFirst ':' (a :: b :: c :: d :: x2)
        = some (a :: b :: c :: d :: s2, r2) := by
      have h0 := splitAtFirst_append_left ':' [a, b, c, d] x2
        (w4_not_mem_colon a b c d ha hb hc hd)
      rw [hsp] at h0
      exact h0
    unfold urlHostname at hfail ⊢
    rw [hw4] at hfail
    rw [hsp]
    dsimp only at hfail ⊢
    by_cases hv : validScheme s2 = true
    · have hs2all : s2.all schemeChar = true := validScheme_all s2 hv
      have hvw : validScheme (a :: b :: c :: d :: s2) = true :=
        validScheme_www a b c d s2 ha hb hc hd hs2all
      rw [if_pos hvw] at hfail
      rw [if_pos hv]
      exact hfail
    · rw [if_neg hv]

/-- Inversion of a successful URL parse: the hostname is empty or a
non-empty string of valid host characters. -/
theorem urlHostname_some_good (s h2 : Str) (he : urlHostname s = some h2) :
    h2 = [] ∨ (h2 ≠ [] ∧ h2.all (fun c => !badHostChar c) = true) := by
  unfold urlHostname at he
  rcases hsp : splitAtFirst ':' s with _ | ⟨scheme, rest⟩ <;> rw [hsp] at he
  · simp at he
  · dsimp only at he
    split at he
    · split at he
      · exact Or.inr (parseAuthority_some_good _ _ he)
      · exact Or.inl (Option.some.inj he).symm
    · simp at he

/-- A lowercased, `www.`-stripped, lowercased string is the stripped
lowercase string: the final lowering in `normalizeDomain` is inert. -/
theorem stripLower_fix (z : Str) (h : startsWWW (lowerStr z) = false) :
    lowerStr (stripWWW (lowerStr z)) = lowerStr z := by
  unfold stripWWW
  rw [if_neg (by rw [h]; simp)]
  exact lowerStr_idem z

/-- Fixpoint of `normalizeDomain` when the first pass parsed a hostname. -/
theorem normalizeDomain_fix_some (x hh : Str)
    (hbr : (if hasSub x (strOf ("://")) then urlHostname x
        else urlHostname (strOf ("https://") ++ x)) = some hh)
    (h : startsWWW (lowerStr (stripWWW hh)) = false) :
    normalizeDomain (lowerStr (stripWWW hh)) = lowerStr (stripWWW hh) := by
  have hgood : hh = [] ∨ (hh ≠ [] ∧ hh.all (fun c => !badHostChar c) = true) := by
    by_cases hc : hasSub x (strOf ("://")) = true
    · rw [if_pos hc] at hbr
      exact urlHostname_some_good x hh hbr
    · rw [if_neg hc] at hbr
      exact urlHostname_some_good _ hh hbr
  rcases hgood with rfl | ⟨hne, hg⟩
  · rfl
  · have hstrip : (stripWWW hh).all (fun c => !badHostChar c) = true := by
      unfold stripWWW
      by_cases hw : startsWWW hh = true
      · rw [if_pos hw]
        rw [List.all_eq_true] at hg ⊢
        exact fun c hc => hg c (List.mem_of_mem_drop hc)
      · rw [if_neg hw]
        exact hg
    have hyg : (lowerStr (stripWWW hh)).all (fun c => !badHostChar c) = true := by
      rw [all_lowerStr _ _ (fun c => by
        show (!badHostChar (Char.toLower c)) = !badHostChar c
        rw [badHostChar_toLower])]
      exact hstrip
    by_cases hynil : lowerStr (stripWWW hh) = []
    · rw [hynil]
      rfl
    · have hnocolon : ':' ∉ lowerStr (stripWWW hh) := by
        intro hcm
        have := List.all_eq_true.mp hyg ':' hcm
        rw [show badHostChar ':' = true from by decide] at this
        simp at this
      have hnosub : hasSub (lowerStr (stripWWW hh)) (strOf ("://")) = false := by
        rcases hcs : hasSub (lowerStr (stripWWW hh)) (strOf ("://")) with _ | _
        · rfl
        · exact absurd (mem_of_hasSub _ ['/', '/'] ':' hcs) hnocolon
      rw [normalizeDomain_eq _ hynil]
      simp only [hnosub, Bool.false_eq_true, if_false, urlHostname_https,
        parseAuthority_good_roundtrip _ hynil hyg]
      exact stripLower_fix (stripWWW hh) h

/-- Fixpoint of `normalizeDomain` when the first pass fell back to the raw
input. -/
theorem normalizeDomain_fix_none (x : Str) (hx : x ≠ [])
    (hbr : (if hasSub x (strOf ("://")) then urlHostname x
        else urlHostname (strOf ("https://") ++ x)) = none)
    (h : startsWWW (lowerStr (stripWWW x)) = false) :
    normalizeDomain (lowerStr (stripWWW x)) = lowerStr (stripWWW x) := by
  by_cases hw : startsWWW x = true
  · -- x begins with a case-insensitive `www.`
    rcases startsWWW_decomp x hw with ⟨a, b, c, d, hxeq, ha2, hb2, hc2, hd2⟩
    have hsx : stripWWW x = x.drop 4 := by
      unfold stripWWW
      rw [if_pos hw]
    rw [hsx] at h ⊢
    by_cases hyn : lowerStr (x.drop 4) = []
    · rw [hyn]
      rfl
    · have hx2n : x.drop 4 ≠ [] := by
        intro hv
        rw [hv] at hyn
        exact hyn rfl
      have hsub2 : hasSub (lowerStr (x.drop 4)) (strOf ("://"))
          = hasSub (x.drop 4) (strOf ("://")) :=
        hasSub_lowerStr_symbols (x.drop 4) _ css_symbols
      rw [normalizeDomain_eq _ hyn]
      by_cases hcs : hasSub x (strOf ("://")) = true
      · rw [if_pos hcs] at hbr
        have hcs4 : hasSub (a :: b :: c :: d :: x.drop 4) (strOf ("://")) = true := by
          rw [← hxeq]
          exact hcs
        have hcs2 : hasSub (x.drop 4) (strOf ("://")) = true :=
          hasSub_append_elim [a, b, c, d] (x.drop 4) (strOf ("//")) ':' hcs4
            (w4_not_mem_colon a b c d ha2 hb2 hc2 hd2)
        have hbr4 : urlHostname (a :: b :: c :: d :: x.drop 4) = none := by
          rw [← hxeq]
          exact hbr
        have hun : urlHostname (x.drop 4) = none :=
          urlHostname_www_fail a b c d (x.drop 4) ha2 hb2 hc2 hd2 hbr4
        have huny : urlHostname (lowerStr (x.drop 4)) = none := by
          rw [urlHostname_lowerStr, hun]
          rfl
        have hsuby : hasSub (lowerStr (x.drop 4)) (strOf ("://")) = true := by
          rw [hsub2, hcs2]
        simp only [hsuby, if_true, huny]
        exact stripLower_fix (x.drop 4) h
      · rw [if_neg hcs] at hbr
        have hpa4 : parseAuthority (a :: b :: c :: d :: x.drop 4) = none := by
          rw [← urlHostname_https (a :: b :: c :: d :: x.drop 4), ← hxeq]
          exact hbr
        have hpax2 : parseAuthority (x.drop 4) = none :=
          parseAuthority_www_fail a b c d (x.drop 4) ha2 hb2 hc2 hd2 hpa4
        have hcs2 : hasSub (x.drop 4) (strOf ("://")) = false := by
          rcases hv : hasSub (x.drop 4) (strOf ("://")) with _ | _
          · rfl
          · exfalso
            have : hasSub (a :: b :: c :: d :: x.drop 4) (strOf ("://")) = true :=
              hasSub_append_right [a, b, c, d] (x.drop 4) _ hv
            rw [← hxeq] at this
            rw [this] at hcs
            exact hcs rfl
        have hsuby : hasSub (lowerStr (x.drop 4)) (strOf ("://")) = false := by
          rw [hsub2, hcs2]
        have huny : urlHostname (strOf ("https://") ++ lowerStr (x.drop 4)) = none := by
          rw [urlHostname_https, parseAuthority_lowerStr, hpax2]
          rfl
        simp only [hsuby, Bool.false_eq_true, if_false, huny]
        exact stripLower_fix (x.drop 4) h
  · -- no leading `www.`
    have hsx : stripWWW x = x := by
      unfold stripWWW
      rw [if_neg hw]
    rw [hsx] at h ⊢
    by_cases hyn : lowerStr x = []
    · rw [hyn]
      rfl
    · have hsub2 : hasSub (lowerStr x) (strOf ("://")) = hasSub x (strOf ("://")) :=
        hasSub_lowerStr_symbols x _ css_symbols
      rw [normalizeDomain_eq _ hyn]
      by_cases hcs : hasSub x (strOf ("://")) = true
      · rw [if_pos hcs] at hbr
        have huny : urlHostname (lowerStr x) = none := by
          rw [urlHostname_lowerStr, hbr]
          rfl
        have hsuby : hasSub (lowerStr x) (strOf ("://")) = true := by
          rw [hsub2, hcs]
        simp only [hsuby, if_true, huny]
        exact stripLower_fix x h
      · rw [if_neg hcs] at hbr
        have huny : urlHostname (strOf ("https://") ++ lowerStr x) = none := by
          have happ : strOf ("https://") ++ lowerStr x = lowerStr (strOf ("https://") ++ x) := by
            show strOf ("https://") ++ lowerStr x
              = List.map Char.toLower (strOf ("https://") ++ x)
            rw [List.map_append]
            rfl
          rw [happ, urlHostname_lowerStr, hbr]
          rfl
        have hsuby : hasSub (lowerStr x) (strOf ("://")) = false := by
          rw [hsub2]
          simpa using hcs
        simp only [hsuby, Bool.false_eq_true, if_false, huny]
        exact stripLower_fix x h

/-- Claim C6 (amended): domain normalization is idempotent at every input
whose normalized form does not itself begin with a (case-insensitive)
`www.` prefix — the replacement of `/^www\./i` removes only one `www.`, so
inputs like `www.www.example.com` normalize to `www.example.com`, which a
second pass shortens again.  Case- and leading-`www.`-insensitivity at the
specification's concrete inputs holds as stated. -/
theorem normalizeDomain_idem_nonwww :
    (∀ x : Str, startsWWW (normalizeDomain x) = false →
      normalizeDomain (normalizeDomain x) = normalizeDomain x) ∧
    normalizeDomain (strOf ("WWW.Example.com")) = strOf ("example.com") ∧
    normalizeDomain (strOf ("example.com")) = strOf ("example.com") := by
  refine ⟨?_, by decide, by decide⟩
  intro x h
  by_cases hx : x = []
  · subst hx
    rfl
  · rw [normalizeDomain_eq x hx] at h ⊢
    rcases hbr : (if hasSub x (strOf ("://")) then urlHostname x
      else urlHostname (strOf ("https://") ++ x)) with _ | hh
    · rw [hbr] at h
      exact normalizeDomain_fix_none x hx hbr h
    · rw [hbr] at h
      exact normalizeDomain_fix_some x hh hbr h

/-- Witness for C6's amended theorem at the specification's concrete
input. -/
theorem normalizeDomain_idem_nonwww_witness :
    normalizeDomain (normalizeDomain (strOf ("WWW.Example.com")))
      = normalizeDomain (strOf ("WWW.Example.com")) :=
  normalizeDomain_idem_nonwww.1 (strOf ("WWW.Example.com")) (by decide)

/-- Counterexample to claim C6 as stated: normalization strips only one
`www.`, so it is not idempotent on `www.www.example.com`. -/
theorem normalizeDomain_not_idem :
    normalizeDomain (strOf ("www.www.example.com")) = strOf ("www.example.com") ∧
    normalizeDomain (normalizeDomain (strOf ("www.www.example.com")))
      = strOf ("example.com") ∧
    normalizeDomain (normalizeDomain (strOf ("www.www.example.com")))
      ≠ normalizeDomain (strOf ("www.www.example.com")) := by
  decide
